import Mathlib

/-!
Verification development for the bpftop repository (crates `bpftop`,
`bpf-metrics`, `ebpf-metrics`).

The decoder of `bpftop/src/metrics.rs` is embedded below as a shallow model of
the nom parser combinators it uses, operating on `List Char`.  nom's
`IResult<&str, T>` is modelled by `IRes`: success carries the remaining input
and the parsed value; failure carries either `NomErr.incomplete`
(`nom::Err::Incomplete`, produced by the streaming combinators) or
`NomErr.error` (`nom::Err::Error`; `nom::Err::Failure` is never produced by
the combinators this parser uses, so it is not modelled).
-/

set_option autoImplicit false

/-- Error class of a nom parse result: `Incomplete` (streaming parsers need
more input) or a recoverable `Error`. -/
inductive NomErr where
  | incomplete
  | error
deriving DecidableEq, Repr

/-- A nom `IResult`: remaining input plus value, or an error. -/
inductive IRes (α : Type) where
  | ok (rest : List Char) (val : α)
  | err (e : NomErr)
deriving DecidableEq, Repr

/-- Sequence two parse steps, propagating errors (the `?` chaining of nom). -/
def andThen {α β : Type} (r : IRes α) (f : List Char → α → IRes β) : IRes β :=
  match r with
  | .ok rest v => f rest v
  | .err e => .err e

/-- `nom::bytes::complete::tag`: match a literal; any mismatch (including a
too-short input) is an `Error`. -/
def tagC (t : List Char) (input : List Char) : IRes (List Char) :=
  if t.isPrefixOf input then .ok (input.drop t.length) t else .err .error

/-- `nom::bytes::streaming::tag`: match a literal; if the input is a proper
prefix of the literal the result is `Incomplete`, otherwise a mismatch is an
`Error`. -/
def tagS (t : List Char) (input : List Char) : IRes (List Char) :=
  if t.isPrefixOf input then .ok (input.drop t.length) t
  else if input.isPrefixOf t then .err .incomplete
  else .err .error

/-- `nom::character::complete::char`: match a single character. -/
def charC (c : Char) (input : List Char) : IRes Char :=
  match input with
  | [] => .err .error
  | x :: rest => if x = c then .ok rest c else .err .error

/-- `nom::character::streaming::char`: match a single character; empty input
is `Incomplete`. -/
def charS (c : Char) (input : List Char) : IRes Char :=
  match input with
  | [] => .err .incomplete
  | x :: rest => if x = c then .ok rest c else .err .error

/-- Index of the first occurrence of `t` as a contiguous sublist
(nom's `FindSubstring`). -/
def findSub (t : List Char) : List Char → Option Nat
  | [] => if t = [] then some 0 else none
  | x :: rest =>
    if t.isPrefixOf (x :: rest) then some 0
    else (findSub t rest).map (· + 1)

/-- `nom::bytes::streaming::take_until`: consume up to (not including) the
first occurrence of `t`; `Incomplete` if `t` does not occur. -/
def takeUntilS (t : List Char) (input : List Char) : IRes (List Char) :=
  match findSub t input with
  | some n => .ok (input.drop n) (input.take n)
  | none => .err .incomplete

/-- `nom::bytes::streaming::take_until1`: like `takeUntilS` but an occurrence
at position 0 is an `Error`. -/
def takeUntil1S (t : List Char) (input : List Char) : IRes (List Char) :=
  match findSub t input with
  | some 0 => .err .error
  | some n => .ok (input.drop n) (input.take n)
  | none => .err .incomplete

/-- Core loop of nom's streaming unsigned-integer parsers
(`nom::character::streaming::u32`/`u64`): digits accumulate most significant
first; the first non-digit stops the parse (an `Error` if it is the very
first character); running past the end of the input is `Incomplete`
(streaming); exceeding `maxVal` (the `checked_mul`/`checked_add` overflow
test) is an `Error`. `first` is true while no digit has been consumed. -/
def uintLoop (maxVal : Nat) (acc : Nat) (first : Bool) : List Char → IRes Nat
  | [] => .err .incomplete
  | c :: rest =>
    if c.isDigit then
      let v := acc * 10 + (c.toNat - 48)
      if v ≤ maxVal then uintLoop maxVal v false rest else .err .error
    else if first then .err .error
    else .ok (c :: rest) acc

/-- `nom::character::streaming::u32`. -/
def nomU32 (input : List Char) : IRes Nat :=
  uintLoop (2 ^ 32 - 1) 0 true input

/-- `nom::character::streaming::u64`. -/
def nomU64 (input : List Char) : IRes Nat :=
  uintLoop (2 ^ 64 - 1) 0 true input

/-- `nom::branch::alt` for two alternatives: a recoverable `Error` from the
first parser tries the second; `Incomplete` propagates. -/
def pAlt {α : Type} (p q : List Char → IRes α) (input : List Char) : IRes α :=
  match p input with
  | .err .error => q input
  | r => r

/-- `nom::sequence::delimited`. -/
def delimitedP {α β γ : Type} (a : List Char → IRes α) (b : List Char → IRes β)
    (c : List Char → IRes γ) (input : List Char) : IRes β :=
  andThen (a input) fun i1 _ =>
  andThen (b i1) fun i2 v =>
  andThen (c i2) fun i3 _ => .ok i3 v

/-- `nom::sequence::preceded`. -/
def precededP {α β : Type} (a : List Char → IRes α) (b : List Char → IRes β)
    (input : List Char) : IRes β :=
  andThen (a input) fun i1 _ => b i1

/-- `nom::sequence::tuple` for three parsers. -/
def tuple3P {α β γ : Type} (a : List Char → IRes α) (b : List Char → IRes β)
    (c : List Char → IRes γ) (input : List Char) : IRes (α × β × γ) :=
  andThen (a input) fun i1 va =>
  andThen (b i1) fun i2 vb =>
  andThen (c i2) fun i3 vc => .ok i3 (va, vb, vc)

/-- `nom::multi::count`: apply a parser exactly `n` times, propagating every
error. -/
def countN {α : Type} (p : List Char → IRes α) (n : Nat) (input : List Char) :
    IRes (List α) :=
  match n with
  | 0 => .ok input []
  | n + 1 =>
    andThen (p input) fun i v =>
    andThen (countN p n i) fun i2 vs => .ok i2 (v :: vs)

/-- Loop of `nom::multi::separated_list0` after the first element.  nom's
infinite-loop protection returns an `Error` when the separator consumed
nothing (`i1.input_len() == len`).  The loop is made structurally recursive
on a fuel parameter; the caller supplies fuel exceeding the input length,
which suffices because every iteration consumes at least one character. -/
def sepLoop {α β : Type} (sep : List Char → IRes α) (f : List Char → IRes β)
    (fuel : Nat) (acc : List β) (input : List Char) : IRes (List β) :=
  match fuel with
  | 0 => .err .error
  | fuel + 1 =>
    match sep input with
    | .err .error => .ok input acc
    | .err e => .err e
    | .ok i1 _ =>
      if i1.length = input.length then .err .error
      else
        match f i1 with
        | .err .error => .ok input acc
        | .err e => .err e
        | .ok i2 o => sepLoop sep f fuel (acc ++ [o]) i2

/-- `nom::multi::separated_list0`. -/
def sepList0 {α β : Type} (sep : List Char → IRes α) (f : List Char → IRes β)
    (input : List Char) : IRes (List β) :=
  match f input with
  | .err .error => .ok input []
  | .err e => .err e
  | .ok i1 o => sepLoop sep f (i1.length + 1) [o] i1

/-- Loop of `nom::multi::fold_many0`: repeat `f`, folding the results with
`g`; a recoverable `Error` stops the loop, other errors propagate; nom's
infinite-loop protection errors when `f` consumed nothing.  Structurally
recursive on fuel, as for `sepLoop`. -/
def foldLoop {α β : Type} (f : List Char → IRes α) (g : β → α → β)
    (fuel : Nat) (acc : β) (input : List Char) : IRes β :=
  match fuel with
  | 0 => .err .error
  | fuel + 1 =>
    match f input with
    | .err .error => .ok input acc
    | .err e => .err e
    | .ok i1 o =>
      if i1.length = input.length then .err .error
      else foldLoop f g fuel (g acc o) i1

/-- `nom::multi::fold_many0`. -/
def foldMany0 {α β : Type} (f : List Char → IRes α) (g : β → α → β) (acc : β)
    (input : List Char) : IRes β :=
  foldLoop f g (input.length + 1) acc input

/-! ## The decoder of `bpftop/src/metrics.rs` -/

/-- The `BpfProgram` struct of `bpftop` (the fields filled by `deserialize`;
machine integers become `Nat`). -/
structure BpfProgram where
  id : Nat
  bpf_type : List Char
  name : List Char
  prev_runtime_ns : Nat
  run_time_ns : Nat
  prev_run_cnt : Nat
  run_cnt : Nat
  uptime : Nat
  period_ns : Nat
  processes : List Nat
deriving DecidableEq, Repr

/-- `"ebpf_"`. -/
def litEbpf : List Char := "ebpf_".toList

/-- `"run_time_nanoseconds"`. -/
def litRunTime : List Char := "run_time_nanoseconds".toList

/-- `"execution_count"`. -/
def litExecution : List Char := "execution_count".toList

/-- `"time_loaded_nanoseconds"`. -/
def litTimeLoaded : List Char := "time_loaded_nanoseconds".toList

/-- `"_total"`. -/
def litTotal : List Char := "_total".toList

/-- The opening label text of a sample line. -/
def litOpenLabel : List Char := "\x7bid=\"".toList

/-- The separator between the id and program_type label values. -/
def litSepType : List Char := "\",program_type=\"".toList

/-- The separator between the program_type and name label values. -/
def litSepName : List Char := "\",name=\"".toList

/-- The closing label text of a sample line. -/
def litCloseLabel : List Char := "\"\x7d".toList

/-- A double quote, the `take_until("\"")` pattern. -/
def litQuote : List Char := "\"".toList

/-- A newline, the `take_until1("\n")` pattern. -/
def litNewline : List Char := "\n".toList

/-- A hash mark, the `take_until("#")` pattern. -/
def litHash : List Char := "#".toList

/-- The end-of-payload marker `"# EOF\n"` asserted by `deserialize`. -/
def eofMarker : List Char := "# EOF\n".toList

/-- One parsed sample: `(metric_name, (prog_id, prog_type, prog_name),
counter)`, as returned by `parse_metric`. -/
abbrev MetricSample := List Char × (Nat × List Char × List Char) × Nat

/-- `parse_metric` of `bpftop/src/metrics.rs`: metric name (delimited by the
complete tag `"ebpf_"` and the tag `"_total"`, with the three recognized
names as alternatives), then the label tuple
`{id="<u32>",program_type="<string>",name="<string>"}`, then a space and the
`u64` measurement. -/
def parse_metric (input : List Char) : IRes MetricSample :=
  andThen
    (delimitedP (tagC litEbpf)
      (pAlt (tagS litRunTime) (pAlt (tagS litExecution) (tagS litTimeLoaded)))
      (tagS litTotal) input) fun i1 metricName =>
  andThen
    (delimitedP (tagS litOpenLabel)
      (tuple3P nomU32
        (delimitedP (tagS litSepType) (takeUntilS litQuote) (tagS litSepName))
        (takeUntilS litQuote))
      (tagS litCloseLabel) i1) fun i2 labels =>
  andThen (precededP (charS ' ') nomU64 i2) fun i3 counter =>
  .ok i3 (metricName, labels, counter)

/-- One metadata line of a section: `'#'`, at least one further character up
to a newline, then the newline. -/
def metaLine (input : List Char) : IRes (Char × List Char × Char) :=
  tuple3P (charC '#') (takeUntil1S litNewline) (charS '\n') input

/-- `parse_section` of `bpftop/src/metrics.rs`: three metadata lines, then
the metrics portion up to the next `'#'`, on which `separated_list0` of
newline-separated `parse_metric` runs (its own leftover is discarded). -/
def parse_section (input : List Char) : IRes (List MetricSample) :=
  andThen (precededP (countN metaLine 3) (takeUntilS litHash) input)
    fun buffer sect =>
  match sepList0 (charC '\n') parse_metric sect with
  | .ok _ metrics => .ok buffer metrics
  | .err e => .err e

/-- The default `BpfProgram` inserted by `or_insert_with` in `deserialize`. -/
def defaultProg (progId : Nat) (progType progName : List Char) : BpfProgram :=
  { id := progId, bpf_type := progType, name := progName,
    prev_runtime_ns := 0, run_time_ns := 0, prev_run_cnt := 0, run_cnt := 0,
    uptime := 0, period_ns := 0, processes := [] }

/-- The `match metric_name` in `deserialize`'s fold: `run_time_nanoseconds`
sets `run_time_ns`, `execution_count` sets `run_cnt`, anything else sets
`uptime`. -/
def setMetricField (metricName : List Char) (counter : Nat) (p : BpfProgram) :
    BpfProgram :=
  if metricName = litRunTime then { p with run_time_ns := counter }
  else if metricName = litExecution then { p with run_cnt := counter }
  else { p with uptime := counter }

/-- `BTreeMap::entry(k).or_insert_with(dflt)` followed by a field update `f`,
on the sorted association-list model of `BTreeMap<u32, BpfProgram>`. -/
def btreeUpd (k : Nat) (f : BpfProgram → BpfProgram) (dflt : BpfProgram) :
    List (Nat × BpfProgram) → List (Nat × BpfProgram)
  | [] => [(k, f dflt)]
  | (k', v) :: t =>
    if k < k' then (k, f dflt) :: (k', v) :: t
    else if k = k' then (k', f v) :: t
    else (k', v) :: btreeUpd k f dflt t

/-- Apply one parsed sample to the accumulated map (the body of the `for`
loop inside `deserialize`'s fold closure). -/
def applyMetric (acc : List (Nat × BpfProgram)) (s : MetricSample) :
    List (Nat × BpfProgram) :=
  btreeUpd s.2.1.1 (setMetricField s.1 s.2.2) (defaultProg s.2.1.1 s.2.1.2.1 s.2.1.2.2) acc

/-- The fold closure of `deserialize`: apply every sample of a section. -/
def foldStep (acc : List (Nat × BpfProgram)) (metrics : List MetricSample) :
    List (Nat × BpfProgram) :=
  metrics.foldl applyMetric acc

/-- Outcome of `deserialize`: a parse `Ok`, a nom error returned through `?`,
or the panic of the `assert_eq!("# EOF\n", buffer)`. -/
inductive DeserResult where
  | ok (rest : List Char) (progs : List BpfProgram)
  | err (e : NomErr)
  | panicked
deriving DecidableEq, Repr

/-- `deserialize` of `bpftop/src/metrics.rs`: `fold_many0(parse_section, ...)`
into a `BTreeMap` keyed by program id, then `assert_eq!("# EOF\n", buffer)`
(modelled as the `panicked` outcome when the residue differs), then
`Ok((buffer, metrics.into_values()))`. -/
def deserialize (buffer : List Char) : DeserResult :=
  match foldMany0 parse_section foldStep [] buffer with
  | .err e => .err e
  | .ok rest acc =>
    if rest = eofMarker then .ok rest (acc.map Prod.snd) else .panicked

/-! ## The metric registry of `bpf-metrics` -/

/-- `HashMap::insert` on the association-list model: replace the value of an
existing key, else append. -/
def assocInsert {K V : Type} [DecidableEq K] (k : K) (v : V) :
    List (K × V) → List (K × V)
  | [] => [(k, v)]
  | (k', v') :: t => if k = k' then (k, v) :: t else (k', v') :: assocInsert k v t

/-- `HashMap::get` on the association-list model. -/
def assocLookup {K V : Type} [DecidableEq K] (k : K) :
    List (K × V) → Option V
  | [] => none
  | (k', v') :: t => if k = k' then some v' else assocLookup k t

/-- Apply `f` to the value of `k` when present; unchanged when absent
(the `if let Some(family) = map.get(metric)` pattern with in-place
mutation of the found family). -/
def assocUpdate {K V : Type} [DecidableEq K] (k : K) (f : V → V) :
    List (K × V) → List (K × V)
  | [] => []
  | (k', v') :: t =>
    if k = k' then (k', f v') :: t else (k', v') :: assocUpdate k f t

/-- A counter family: `Family<L, Counter>` as a label→value map (`u64` values
as `Nat`). -/
abbrev CounterFamily (L : Type) := List (L × Nat)

/-- A gauge family: `Family<L, Gauge>` as a label→value map (`i64` values as
`Int`). -/
abbrev GaugeFamily (L : Type) := List (L × Int)

/-- `MetricCollection<E, L>` of `bpf-metrics/src/metric_collection.rs`:
counter and gauge families keyed by the metric kind. -/
structure MetricCollection (E L : Type) where
  counters : List (E × CounterFamily L)
  gauges : List (E × GaugeFamily L)
deriving DecidableEq, Repr

/-- One entry of the prometheus-client `Registry`: the metadata passed to
`register_with_unit` (name, help, unit).  `Registry::register` appends the
family unconditionally; it performs no duplicate check, so the registry is a
plain list that grows by one entry per registration. -/
structure RegEntry where
  rname : List Char
  rhelp : List Char
  runit : List Char
deriving DecidableEq, Repr

/-- `MetricCollection::register_counter`: create a fresh (empty) family,
register it with the registry, and `insert` it into the `counters` map
(replacing any previous binding of the kind). -/
def register_counter {E L : Type} [DecidableEq E] (c : MetricCollection E L)
    (reg : List RegEntry) (metric : E) (nm hp un : List Char) :
    MetricCollection E L × List RegEntry :=
  (⟨assocInsert metric ([] : CounterFamily L) c.counters, c.gauges⟩,
    reg ++ [⟨nm, hp, un⟩])

/-- `MetricCollection::register_gauge`: as `register_counter`, on the
`gauges` map. -/
def register_gauge {E L : Type} [DecidableEq E] (c : MetricCollection E L)
    (reg : List RegEntry) (metric : E) (nm hp un : List Char) :
    MetricCollection E L × List RegEntry :=
  (⟨c.counters, assocInsert metric ([] : GaugeFamily L) c.gauges⟩,
    reg ++ [⟨nm, hp, un⟩])

/-- `MetricCollection::update_counter`: when the kind is registered, store
`value` for `labels` in its family (`get_or_create` + `store`); otherwise do
nothing. -/
def update_counter {E L : Type} [DecidableEq E] [DecidableEq L]
    (c : MetricCollection E L) (metric : E) (labels : L) (value : Nat) :
    MetricCollection E L :=
  ⟨assocUpdate metric (fun fam => assocInsert labels value fam) c.counters,
    c.gauges⟩

/-- `MetricCollection::update_gauge`: when the kind is registered, `set` the
gauge for `labels`; otherwise do nothing. -/
def update_gauge {E L : Type} [DecidableEq E] [DecidableEq L]
    (c : MetricCollection E L) (metric : E) (labels : L) (value : Int) :
    MetricCollection E L :=
  ⟨c.counters, assocUpdate metric (fun fam => assocInsert labels value fam) c.gauges⟩

/-- `Reset::clear_metrics`: `Family::clear` on every counter and gauge family
(the families stay registered; their label→value maps become empty). -/
def clear_metrics {E L : Type} (c : MetricCollection E L) :
    MetricCollection E L :=
  ⟨c.counters.map (fun p => (p.1, [])), c.gauges.map (fun p => (p.1, []))⟩

/-- Every family of the collection holds no label-set entry. -/
def familiesEmpty {E L : Type} (c : MetricCollection E L) : Prop :=
  (∀ p ∈ c.counters, p.2 = []) ∧ ∀ p ∈ c.gauges, p.2 = []

/-- Modelled from the spec: the number of sample lines the §6 text encoder
emits for a collection — one sample line per label set present in a family
(§4.2).  The text encoder itself (`prometheus_client::encoding::text`) is
external to this repository. -/
def sampleLineCount {E L : Type} (c : MetricCollection E L) : Nat :=
  (c.counters.map (fun p => p.2.length)).sum +
    (c.gauges.map (fun p => p.2.length)).sum

/-- `std::fmt::Error`, the error type of `text::encode`. -/
structure FmtError where
deriving DecidableEq, Repr

/-- `BpfMetrics::export_metrics` of `bpf-metrics/src/bpf_metrics.rs`.  The
outcome of `text::encode` is supplied as a parameter (`enc`), since the
encoder is an external collaborator; the `?` operator returns an encode
error immediately — before the `clear_metrics` loop runs — so the
collections are cleared only on the success path. -/
def export_metrics {E L : Type} (cols : List (MetricCollection E L))
    (enc : Except FmtError (List Char)) :
    Except FmtError (List Char) × List (MetricCollection E L) :=
  match enc with
  | .error e => (.error e, cols)
  | .ok buf => (.ok buf, cols.map clear_metrics)

/-! ## The subject-kind collectors of `bpf-metrics` -/

/-- The `ProgMetric` options of `bpf-metrics/src/prog_info.rs`. -/
inductive ProgMetric where
  | SizeJitted
  | SizeTranslated
  | Uptime
  | RunTime
  | RunCount
  | VerifiedInstructions
  | MemoryLocked
deriving DecidableEq, Repr

/-- `ProgLabels` of `bpf-metrics/src/prog_info.rs`. -/
structure ProgLabels where
  prog_type : List Char
  id : Nat
  tag : Nat
  name : List Char
deriving DecidableEq, Repr

/-- One element yielded by `aya::loaded_programs()` (the external data
source): either a per-element error, or a program snapshot.  `loaded_at`
is `none` when the load timestamp is unavailable; a timestamp later than
`now` makes `SystemTime::duration_since` fail. -/
structure ProgSnapshot where
  name : List Char
  prog_type : List Char
  id : Nat
  tag : Nat
  loaded_at : Option Nat
  run_time_ns : Nat
  run_cnt : Nat
  size_jitted : Nat
  size_translated : Nat
  verified_insns : Nat
  memory_locked : Option Nat
deriving DecidableEq, Repr

/-- `SystemTime::now().duration_since(loaded_at)` in nanoseconds: fails when
the timestamp is unavailable or lies in the future. -/
def uptimeSince (now : Nat) (loadedAt : Option Nat) : Option Nat :=
  match loadedAt with
  | none => none
  | some t => if t ≤ now then some (now - t) else none

/-- The body of the `loaded_programs()` loop in
`Collector::collect_metrics` for programs: skip failed elements, skip
entries with an empty name, skip entries whose uptime computation fails;
otherwise update the seven metric kinds in source order. -/
def collectProgOne (now : Nat) (c : MetricCollection ProgMetric ProgLabels)
    (item : Except Unit ProgSnapshot) : MetricCollection ProgMetric ProgLabels :=
  match item with
  | .error _ => c
  | .ok info =>
    if info.name = [] then c
    else
      let labels : ProgLabels := ⟨info.prog_type, info.id, info.tag, info.name⟩
      match uptimeSince now info.loaded_at with
      | none => c
      | some uptime =>
        let c := update_counter c .Uptime labels uptime
        let c := update_gauge c .SizeJitted labels (info.size_jitted : Int)
        let c := update_gauge c .SizeTranslated labels (info.size_translated : Int)
        let c := update_counter c .RunTime labels info.run_time_ns
        let c := update_counter c .RunCount labels info.run_cnt
        let c := update_gauge c .VerifiedInstructions labels (info.verified_insns : Int)
        update_gauge c .MemoryLocked labels ((info.memory_locked.getD 0 : Nat) : Int)

/-- `Collector::collect_metrics` for programs, over the sequence of
snapshots the data source yields. -/
def collectProg (now : Nat) (snaps : List (Except Unit ProgSnapshot))
    (c : MetricCollection ProgMetric ProgLabels) :
    MetricCollection ProgMetric ProgLabels :=
  snaps.foldl (collectProgOne now) c

/-- A program snapshot element survives the collector's filters. -/
def progSnapGood (now : Nat) (item : Except Unit ProgSnapshot) : Bool :=
  match item with
  | .error _ => false
  | .ok info => info.name ≠ [] && (uptimeSince now info.loaded_at).isSome

/-- The `MapMetric` options of `bpf-metrics/src/map_info.rs`. -/
inductive MapMetric where
  | KeySize
  | ValueSize
  | MaxEntries
deriving DecidableEq, Repr

/-- `MapLabels` of `bpf-metrics/src/map_info.rs`. -/
structure MapLabels where
  map_type : List Char
  id : Nat
  name : List Char
deriving DecidableEq, Repr

/-- One element yielded by `aya::maps::loaded_maps()`. -/
structure MapSnapshot where
  name : List Char
  map_type : List Char
  id : Nat
  key_size : Nat
  value_size : Nat
  max_entries : Nat
deriving DecidableEq, Repr

/-- The body of the `loaded_maps()` loop in `Collector::collect_metrics`
for maps: skip failed elements and empty names; update the three gauges. -/
def collectMapOne (c : MetricCollection MapMetric MapLabels)
    (item : Except Unit MapSnapshot) : MetricCollection MapMetric MapLabels :=
  match item with
  | .error _ => c
  | .ok info =>
    if info.name = [] then c
    else
      let labels : MapLabels := ⟨info.map_type, info.id, info.name⟩
      let c := update_gauge c .KeySize labels (info.key_size : Int)
      let c := update_gauge c .ValueSize labels (info.value_size : Int)
      update_gauge c .MaxEntries labels (info.max_entries : Int)

/-- `Collector::collect_metrics` for maps. -/
def collectMap (snaps : List (Except Unit MapSnapshot))
    (c : MetricCollection MapMetric MapLabels) :
    MetricCollection MapMetric MapLabels :=
  snaps.foldl collectMapOne c

/-- A map snapshot element survives the collector's filters. -/
def mapSnapGood (item : Except Unit MapSnapshot) : Bool :=
  match item with
  | .error _ => false
  | .ok info => info.name ≠ []

/-! ## `ebpf-metrics`: `record_metrics` and its counter arithmetic -/

/-- `2^64`, the modulus of `u64` arithmetic. -/
def u64Mod : Nat := 2 ^ 64

/-- The unguarded `u64` subtraction `observed - stored` in `record_metrics`
(`run_time_ns - run_time_metric.get()` and its two siblings): two's
complement wrapping subtraction, which underflows (wraps) when
`observed < stored`. -/
def deltaU64 (stored observed : Nat) : Nat :=
  (observed + u64Mod - stored) % u64Mod

/-- `Counter::inc_by(delta)` on a counter currently holding `stored`:
a wrapping `u64` addition (`AtomicU64::fetch_add`). -/
def recordStep (stored observed : Nat) : Nat :=
  (stored + deltaU64 stored observed) % u64Mod

/-- The `Labels` struct of `ebpf-metrics/src/lib.rs`. -/
structure EbpfLabels where
  id : Nat
  program_type : List Char
  name : List Char
deriving DecidableEq, Repr

/-- `family.get_or_create(&labels)` (default counter value 0) followed by
`inc_by(observed - get())`, on a counter family. -/
def familyRecord (fam : CounterFamily EbpfLabels) (labels : EbpfLabels)
    (observed : Nat) : CounterFamily EbpfLabels :=
  let stored := (assocLookup labels fam).getD 0
  assocInsert labels (recordStep stored observed) fam

/-- The three metric families of `OpenMetrics` in `ebpf-metrics`. -/
structure OpenMetricsFams where
  run_time_ns : CounterFamily EbpfLabels
  run_cnt : CounterFamily EbpfLabels
  uptime : CounterFamily EbpfLabels
deriving DecidableEq, Repr

/-- One element yielded by `aya::loaded_programs()` as used by
`ebpf-metrics`: `program_type_enum()` may fail (the label falls back to
`"Invalid"`). -/
structure EbpfProgInfo where
  name : List Char
  program_type : Except Unit (List Char)
  id : Nat
  loaded_at : Option Nat
  run_time_ns : Nat
  run_cnt : Nat
deriving Repr

/-- `Labels::new` of `ebpf-metrics/src/lib.rs`. -/
def ebpfLabelsOf (info : EbpfProgInfo) : EbpfLabels :=
  { id := info.id,
    program_type := match info.program_type with
      | .ok s => s
      | .error _ => "Invalid".toList,
    name := info.name }

/-- The body of the `loaded_programs()` loop in
`OpenMetrics::record_metrics`: skip failed elements, empty names, and failed
uptime computations; otherwise record `run_time_ns`, `run_cnt` and the
uptime into the three counter families via `inc_by(observed - get())`. -/
def recordOne (now : Nat) (fams : OpenMetricsFams)
    (item : Except Unit EbpfProgInfo) : OpenMetricsFams :=
  match item with
  | .error _ => fams
  | .ok info =>
    if info.name = [] then fams
    else
      match uptimeSince now info.loaded_at with
      | none => fams
      | some uptime =>
        let labels := ebpfLabelsOf info
        { run_time_ns := familyRecord fams.run_time_ns labels info.run_time_ns,
          run_cnt := familyRecord fams.run_cnt labels info.run_cnt,
          uptime := familyRecord fams.uptime labels uptime }

/-- `OpenMetrics::record_metrics` over the yielded snapshots. -/
def record_metrics (now : Nat) (snaps : List (Except Unit EbpfProgInfo))
    (fams : OpenMetricsFams) : OpenMetricsFams :=
  snaps.foldl (recordOne now) fams


/-! ## Decimal rendering and rendered sample lines

The exposition text consumed by `deserialize` is produced by the
prometheus-client text encoder, which is external to this repository.  The
renderers below are modelled from the spec (§6 exposition format, §4.2
encoder): decimal integers, one sample line per label set in the label order
`id`, `program_type`, `name`, and family sections of three `#`-metadata
lines followed by the sample lines. -/

/-- The decimal digit character for `d < 10`. -/
def digitChar (d : Nat) : Char := Char.ofNat (48 + d)

/-- Decimal rendering of `n`, most significant digit first, with explicit
fuel (any fuel above the digit count gives the same result; `natChars`
supplies `n + 1`). -/
def natCharsFuel : Nat → Nat → List Char
  | 0, _ => []
  | fuel + 1, n =>
    if n < 10 then [digitChar n]
    else natCharsFuel fuel (n / 10) ++ [digitChar (n % 10)]

/-- Decimal rendering of a natural number. -/
def natChars (n : Nat) : List Char := natCharsFuel (n + 1) n

/-- The most-significant-first digit accumulation performed by `uintLoop`. -/
def msbFold (acc : Nat) (ds : List Char) : Nat :=
  ds.foldl (fun a c => a * 10 + (c.toNat - 48)) acc

/-- One sample of a rendered family section: the metric name (without the
`ebpf_` and `_total` affixes), the three label values, and the sample
value. -/
structure SampleData where
  metricName : List Char
  id : Nat
  progType : List Char
  name : List Char
  value : Nat
deriving DecidableEq, Repr

/-- The `MetricSample` a well-formed rendered sample parses to. -/
def sampleVal (s : SampleData) : MetricSample :=
  (s.metricName, (s.id, s.progType, s.name), s.value)

/-- Modelled from the spec (§6): one rendered sample line, without the
trailing newline:
`ebpf_<name>_total{id="<id>",program_type="<pt>",name="<nm>"} <value>`. -/
def renderMetric (s : SampleData) : List Char :=
  litEbpf ++ s.metricName ++ litTotal ++ litOpenLabel ++ natChars s.id ++
    litSepType ++ s.progType ++ litSepName ++ s.name ++ litCloseLabel ++
    ' ' :: natChars s.value

/-- A sample the decoder's `parse_metric` accepts: one of the three
recognized metric names, label values free of the quote character (the
decoder does not unescape) and of `'#'` (which would end the section early),
and values within the `u32`/`u64` ranges. -/
def SampleWF (s : SampleData) : Prop :=
  (s.metricName = litRunTime ∨ s.metricName = litExecution ∨
      s.metricName = litTimeLoaded) ∧
    s.id < 2 ^ 32 ∧ s.value < 2 ^ 64 ∧
    '"' ∉ s.progType ∧ '"' ∉ s.name ∧ '#' ∉ s.progType ∧ '#' ∉ s.name

instance : DecidablePred SampleWF := by
  intro s
  unfold SampleWF
  infer_instance

/-- One family section of a payload: three metadata lines (their content
after the leading `#`, without the newline) and the sample lines. -/
structure SectionData where
  meta1 : List Char
  meta2 : List Char
  meta3 : List Char
  samples : List SampleData
deriving DecidableEq, Repr

/-- A rendered metadata line `#<m>\n`. -/
def renderMetaLine (m : List Char) : List Char := '#' :: (m ++ ['\n'])

/-- The rendered sample lines of a section, each followed by a newline. -/
def renderSamples : List SampleData → List Char
  | [] => []
  | s :: ss => renderMetric s ++ '\n' :: renderSamples ss

/-- Modelled from the spec (§6): a rendered family section — three
`#`-metadata lines then the sample lines. -/
def renderSection (S : SectionData) : List Char :=
  renderMetaLine S.meta1 ++ (renderMetaLine S.meta2 ++
    (renderMetaLine S.meta3 ++ renderSamples S.samples))

/-- Modelled from the spec (§6): a full payload — the family sections in
order, terminated by the `# EOF` marker line. -/
def renderPayload : List SectionData → List Char
  | [] => eofMarker
  | S :: L => renderSection S ++ renderPayload L

/-- A metadata line the decoder accepts: nonempty content with no newline. -/
def MetaWF (m : List Char) : Prop := m ≠ [] ∧ '\n' ∉ m

instance : DecidablePred MetaWF := by
  intro m
  unfold MetaWF
  infer_instance

/-- A section whose metadata lines are well formed and whose samples all
parse. -/
def SectionWF (S : SectionData) : Prop :=
  MetaWF S.meta1 ∧ MetaWF S.meta2 ∧ MetaWF S.meta3 ∧ ∀ s ∈ S.samples, SampleWF s

instance : DecidablePred SectionWF := by
  intro S
  unfold SectionWF
  infer_instance

/-- The parsed samples of a well-formed section. -/
def sectionVal (S : SectionData) : List MetricSample := S.samples.map sampleVal

/-- `"uptime_nanoseconds"`: the metric name the `ebpf-metrics` encoder
actually emits for the uptime family (`uptime` registered with unit
`nanoseconds`), which the decoder's alternative list does not recognize. -/
def litUptimeNanos : List Char := "uptime_nanoseconds".toList

/-- One label set of the `ebpf-metrics` registry together with its values in
the three counter families (`run_time_ns`, `run_cnt`, `uptime`), as
established by `record_metrics`. -/
structure EbpfEntry where
  id : Nat
  progType : List Char
  name : List Char
  runTime : Nat
  runCnt : Nat
  uptime : Nat
deriving DecidableEq, Repr

/-- HELP metadata of the run-time family (name, help and unit from
`OpenMetrics::new`; prometheus-client appends the unit to the name and a
final period to the help text). -/
def metaHelpRunTime : List Char :=
  " HELP ebpf_run_time_nanoseconds Duration that the program has been running.".toList

/-- TYPE metadata of the run-time family. -/
def metaTypeRunTime : List Char := " TYPE ebpf_run_time_nanoseconds counter".toList

/-- UNIT metadata of the run-time family. -/
def metaUnitRunTime : List Char := " UNIT ebpf_run_time_nanoseconds nanoseconds".toList

/-- HELP metadata of the execution-count family. -/
def metaHelpExec : List Char :=
  " HELP ebpf_execution_count Execution count of the program.".toList

/-- TYPE metadata of the execution-count family. -/
def metaTypeExec : List Char := " TYPE ebpf_execution_count counter".toList

/-- UNIT metadata of the execution-count family. -/
def metaUnitExec : List Char := " UNIT ebpf_execution_count count".toList

/-- HELP metadata of the uptime family. -/
def metaHelpUptime : List Char :=
  " HELP ebpf_uptime_nanoseconds Duration that the program has been loaded.".toList

/-- TYPE metadata of the uptime family. -/
def metaTypeUptime : List Char := " TYPE ebpf_uptime_nanoseconds counter".toList

/-- UNIT metadata of the uptime family. -/
def metaUnitUptime : List Char := " UNIT ebpf_uptime_nanoseconds nanoseconds".toList

/-- The run-time family section of the encoded registry. -/
def runTimeSection (st : List EbpfEntry) : SectionData :=
  ⟨metaHelpRunTime, metaTypeRunTime, metaUnitRunTime,
    st.map (fun e => ⟨litRunTime, e.id, e.progType, e.name, e.runTime⟩)⟩

/-- The execution-count family section of the encoded registry. -/
def execSection (st : List EbpfEntry) : SectionData :=
  ⟨metaHelpExec, metaTypeExec, metaUnitExec,
    st.map (fun e => ⟨litExecution, e.id, e.progType, e.name, e.runCnt⟩)⟩

/-- The uptime family section of the encoded registry.  Its sample names are
`ebpf_uptime_nanoseconds_total`, which `parse_metric` rejects. -/
def uptimeSection (st : List EbpfEntry) : SectionData :=
  ⟨metaHelpUptime, metaTypeUptime, metaUnitUptime,
    st.map (fun e => ⟨litUptimeNanos, e.id, e.progType, e.name, e.uptime⟩)⟩

/-- Modelled from the spec: `OpenMetrics::scrape_metrics`
(`prometheus_client::encoding::text::encode`, external to this repository)
per the §6 exposition format and §4.2 encoder — the three families of
`OpenMetrics::new` in registration order (run_time, execution, uptime), each
as a HELP/TYPE/UNIT section with one sample line per label set, terminated
by `# EOF`.  The label sets are shared across the three families, as
`record_metrics` populates them. -/
def scrape_metrics (st : List EbpfEntry) : List Char :=
  renderPayload [runTimeSection st, execSection st, uptimeSection st]

/-- The `BpfProgram` that decoding an encoded entry produces: identity and
the run-time/run-count values are recovered; `uptime` stays 0 because the
decoder never recognizes the encoder's uptime sample name. -/
def decodedRecord (e : EbpfEntry) : BpfProgram :=
  ⟨e.id, e.progType, e.name, 0, e.runTime, 0, e.runCnt, 0, 0, []⟩

/-- A registry entry the decoder can round-trip: values in `u32`/`u64`
range and string labels free of characters that the §6 encoder would escape
(quote, backslash, newline) or that cut a section short (`#`). -/
def EntryWF (e : EbpfEntry) : Prop :=
  e.id < 2 ^ 32 ∧ e.runTime < 2 ^ 64 ∧ e.runCnt < 2 ^ 64 ∧ e.uptime < 2 ^ 64 ∧
    '"' ∉ e.progType ∧ '"' ∉ e.name ∧ '#' ∉ e.progType ∧ '#' ∉ e.name ∧
    '\\' ∉ e.progType ∧ '\\' ∉ e.name ∧ '\n' ∉ e.progType ∧ '\n' ∉ e.name

instance : DecidablePred EntryWF := by
  intro e
  unfold EntryWF
  infer_instance

/-- The samples of a rendered section that `separated_list0` actually
parses: all of them when every sample is well formed, none when the first
sample's metric name is unrecognized. -/
def c1SectionRes (S : SectionData) : List MetricSample :=
  (S.samples.filter (fun s => decide (SampleWF s))).map sampleVal

/-- All parsed samples of a payload, in section order. -/
def payloadSamples : List SectionData → List MetricSample
  | [] => []
  | S :: L => sectionVal S ++ payloadSamples L

/-- A section holding one run-time sample for id 1 with value 5. -/
def c5SecA : SectionData :=
  ⟨" a".toList, " b".toList, " c".toList,
    [⟨litRunTime, 1, "t".toList, "x".toList, 5⟩]⟩

/-- A section holding one run-time sample for id 1 with value 7. -/
def c5SecB : SectionData :=
  ⟨" a".toList, " b".toList, " c".toList,
    [⟨litRunTime, 1, "t".toList, "x".toList, 7⟩]⟩

/-- A section holding one execution-count sample for id 1 with value 9. -/
def c5SecC : SectionData :=
  ⟨" a".toList, " b".toList, " c".toList,
    [⟨litExecution, 1, "t".toList, "x".toList, 9⟩]⟩

/-- Every collection in the list has only empty families. -/
def allFamiliesEmpty {E L : Type} (cols : List (MetricCollection E L)) : Prop :=
  ∀ c ∈ cols, familiesEmpty c

/-- The record with id 3 decoded from the C9 witness payload. -/
def progIdThree : BpfProgram := ⟨3, "k".toList, "b".toList, 0, 0, 0, 2, 0, 0, []⟩

/-- The record with id 7 decoded from the C9 witness payload. -/
def progIdSeven : BpfProgram := ⟨7, "k".toList, "a".toList, 0, 0, 0, 1, 0, 0, []⟩

/-- The sorted-association-list invariant of the `BTreeMap` model: keys are
strictly increasing. -/
def BtSorted (m : List (Nat × BpfProgram)) : Prop :=
  m.Pairwise (fun p q => p.1 < q.1)

/-- Every stored record's `id` equals its key. -/
def IdsMatch (m : List (Nat × BpfProgram)) : Prop :=
  ∀ p ∈ m, (p.2).id = p.1

/-! ## Basic lemmas on the association-list model -/

theorem assocLookup_insert_self {K V : Type} [DecidableEq K] (k : K) (v : V) :
    ∀ l : List (K × V), assocLookup k (assocInsert k v l) = some v := by
  intro l
  induction l with
  | nil => simp [assocInsert, assocLookup]
  | cons p t ih =>
    by_cases h : k = p.1
    · simp [assocInsert, assocLookup, h]
    · simp [assocInsert, assocLookup, h, ih]

theorem assocUpdate_eq_of_lookup_none {K V : Type} [DecidableEq K] (k : K)
    (f : V → V) :
    ∀ l : List (K × V), assocLookup k l = none → assocUpdate k f l = l := by
  intro l
  induction l with
  | nil => intro _; rfl
  | cons p t ih =>
    intro h
    by_cases hk : k = p.1
    · simp [assocLookup, hk] at h
    · simp [assocLookup, hk] at h
      simp [assocUpdate, hk, ih h]

theorem mem_keys_assocInsert {K V : Type} [DecidableEq K] (k : K) (v : V) :
    ∀ l : List (K × V), k ∈ (assocInsert k v l).map Prod.fst := by
  intro l
  induction l with
  | nil => simp [assocInsert]
  | cons p t ih =>
    obtain ⟨k', v'⟩ := p
    by_cases h : k = k'
    · simp [assocInsert, h]
    · simp only [assocInsert, if_neg h, List.map_cons, List.mem_cons]
      exact Or.inr ih

theorem keys_assocInsert_of_mem {K V : Type} [DecidableEq K] (k : K) (v : V) :
    ∀ l : List (K × V), k ∈ l.map Prod.fst →
      (assocInsert k v l).map Prod.fst = l.map Prod.fst := by
  intro l
  induction l with
  | nil => simp
  | cons p t ih =>
    intro hmem
    obtain ⟨k', v'⟩ := p
    by_cases h : k = k'
    · simp [assocInsert, h]
    · simp only [List.map_cons, List.mem_cons] at hmem
      rcases hmem with hmem | hmem
      · exact absurd hmem h
      · simp only [assocInsert, if_neg h, List.map_cons]
        rw [ih hmem]

/-! ## Theorems for claims C2, C4, C6, C7 -/

theorem familiesEmpty_clear {E L : Type} (c : MetricCollection E L) :
    familiesEmpty (clear_metrics c) := by
  constructor <;> intro p hp <;> simp [clear_metrics] at hp <;>
    obtain ⟨q, -, hq⟩ := hp <;> simp [← hq]

theorem sampleLineCount_clear {E L : Type} (c : MetricCollection E L) :
    sampleLineCount (clear_metrics c) = 0 := by
  simp only [sampleLineCount, clear_metrics, List.map_map]
  refine Nat.add_eq_zero.mpr ⟨List.sum_eq_zero ?_, List.sum_eq_zero ?_⟩ <;>
    · intro x hx
      simp only [List.mem_map, Function.comp] at hx
      obtain ⟨q, -, hq⟩ := hx
      simpa using hq.symm

/-- C2 (amended): the collections are cleared only when `text::encode`
succeeds; on an encode error, `export_metrics` returns early through `?` and
the collections are left exactly as they were (stale entries remain). -/
theorem c2_export_clear_on_success_only {E L : Type}
    (cols : List (MetricCollection E L)) (e : FmtError) (buf : List Char) :
    allFamiliesEmpty (export_metrics cols (Except.ok buf)).2 ∧
      (export_metrics cols (Except.error e)).2 = cols := by
  refine ⟨?_, rfl⟩
  intro c hc
  simp [export_metrics] at hc
  obtain ⟨c', -, hc'⟩ := hc
  exact hc' ▸ familiesEmpty_clear c'

/-- C2 (counterexample): with a collection holding one counter entry,
an encode error leaves that entry in place, so it is not the case that
"every metric family is nevertheless cleared" on the error path. -/
theorem c2_counterexample :
    (export_metrics [(⟨[(0, [(1, 5)])], []⟩ : MetricCollection Nat Nat)]
        (Except.error ⟨⟩)).2 = [⟨[(0, [(1, 5)])], []⟩] ∧
      ¬ familiesEmpty (⟨[(0, [(1, 5)])], []⟩ : MetricCollection Nat Nat) := by
  refine ⟨rfl, fun h => ?_⟩
  have := h.1 (0, [(1, 5)]) (by simp)
  simp at this

/-- C2 (witness for the amended theorem). -/
theorem c2_witness :
    allFamiliesEmpty
        (export_metrics [(⟨[(0, [(1, 5)])], []⟩ : MetricCollection Nat Nat)]
          (Except.ok [])).2 ∧
      (export_metrics [(⟨[(0, [(1, 5)])], []⟩ : MetricCollection Nat Nat)]
          (Except.error ⟨⟩)).2 = [⟨[(0, [(1, 5)])], []⟩] :=
  c2_export_clear_on_success_only [⟨[(0, [(1, 5)])], []⟩] ⟨⟩ []

/-- C4: after a successful `export_metrics`, every family's label-set map is
empty, and (per the §6 encoder model, one sample line per label set) a
second export emits no sample lines. -/
theorem c4_export_idempotent_clearing {E L : Type}
    (cols : List (MetricCollection E L)) (buf : List Char) :
    allFamiliesEmpty (export_metrics cols (Except.ok buf)).2 ∧
      (((export_metrics cols (Except.ok buf)).2).map sampleLineCount).sum = 0 := by
  constructor
  · intro c hc
    simp [export_metrics] at hc
    obtain ⟨c', -, hc'⟩ := hc
    exact hc' ▸ familiesEmpty_clear c'
  · apply List.sum_eq_zero
    intro x hx
    simp [export_metrics, List.map_map] at hx
    obtain ⟨c', -, hc'⟩ := hx
    simpa [Function.comp, sampleLineCount_clear] using hc'.symm

/-- C6 (counterexample): registering the same kind twice returns normally
(the function has no error channel, mirroring the `()`-returning Rust
methods); the collection's map still binds the kind to a single (fresh)
family, while the registry has accumulated two family registrations. -/
theorem c6_counterexample :
    register_counter
        (register_counter (⟨[], []⟩ : MetricCollection Nat Nat) [] 0
          "n".toList "h".toList "u".toList).1
        (register_counter (⟨[], []⟩ : MetricCollection Nat Nat) [] 0
          "n".toList "h".toList "u".toList).2
        0 "n".toList "h".toList "u".toList =
      (⟨[(0, [])], []⟩,
        [⟨"n".toList, "h".toList, "u".toList⟩,
          ⟨"n".toList, "h".toList, "u".toList⟩]) := by
  rfl

/-- C6 (amended): duplicate registration does not fail; for both
`register_counter` and `register_gauge`, the second registration overwrites
the kind's binding in the collection map (the key set is unchanged and the
kind is present), the other map is untouched, and the registry grows by one
entry per call — two entries after the double registration. -/
theorem c6_duplicate_registration_overwrites {E L : Type} [DecidableEq E]
    (c : MetricCollection E L) (reg : List RegEntry) (k : E)
    (n1 h1 u1 n2 h2 u2 : List Char) :
    ((register_counter (register_counter c reg k n1 h1 u1).1
        (register_counter c reg k n1 h1 u1).2 k n2 h2 u2).1.counters.map Prod.fst
      = (register_counter c reg k n1 h1 u1).1.counters.map Prod.fst ∧
      k ∈ (register_counter (register_counter c reg k n1 h1 u1).1
        (register_counter c reg k n1 h1 u1).2 k n2 h2 u2).1.counters.map Prod.fst ∧
      (register_counter (register_counter c reg k n1 h1 u1).1
        (register_counter c reg k n1 h1 u1).2 k n2 h2 u2).1.gauges = c.gauges ∧
      (register_counter (register_counter c reg k n1 h1 u1).1
        (register_counter c reg k n1 h1 u1).2 k n2 h2 u2).2.length = reg.length + 2) ∧
    ((register_gauge (register_gauge c reg k n1 h1 u1).1
        (register_gauge c reg k n1 h1 u1).2 k n2 h2 u2).1.gauges.map Prod.fst
      = (register_gauge c reg k n1 h1 u1).1.gauges.map Prod.fst ∧
      k ∈ (register_gauge (register_gauge c reg k n1 h1 u1).1
        (register_gauge c reg k n1 h1 u1).2 k n2 h2 u2).1.gauges.map Prod.fst ∧
      (register_gauge (register_gauge c reg k n1 h1 u1).1
        (register_gauge c reg k n1 h1 u1).2 k n2 h2 u2).1.counters = c.counters ∧
      (register_gauge (register_gauge c reg k n1 h1 u1).1
        (register_gauge c reg k n1 h1 u1).2 k n2 h2 u2).2.length = reg.length + 2) := by
  refine ⟨⟨?_, ?_, rfl, by simp [register_counter]⟩, ⟨?_, ?_, rfl, by simp [register_gauge]⟩⟩
  · exact keys_assocInsert_of_mem k _ _ (mem_keys_assocInsert k _ _)
  · exact mem_keys_assocInsert k _ _
  · exact keys_assocInsert_of_mem k _ _ (mem_keys_assocInsert k _ _)
  · exact mem_keys_assocInsert k _ _

/-- C7: updating a metric kind that is registered in neither map leaves the
collection unchanged (and the functions are total — no error is raised). -/
theorem c7_update_unregistered_noop {E L : Type} [DecidableEq E] [DecidableEq L]
    (c : MetricCollection E L) (k : E) (labels : L) (v : Nat) (g : Int)
    (hc : assocLookup k c.counters = none)
    (hg : assocLookup k c.gauges = none) :
    update_counter c k labels v = c ∧ update_gauge c k labels g = c := by
  cases c with
  | mk cs gs =>
    constructor
    · simp [update_counter, assocUpdate_eq_of_lookup_none k _ cs hc]
    · simp [update_gauge, assocUpdate_eq_of_lookup_none k _ gs hg]

/-- C7 (witness). -/
theorem c7_witness :
    update_counter (⟨[(0, [(2, 3)])], [(1, [(2, 4)])]⟩ : MetricCollection Nat Nat)
        5 2 9 = ⟨[(0, [(2, 3)])], [(1, [(2, 4)])]⟩ ∧
      update_gauge (⟨[(0, [(2, 3)])], [(1, [(2, 4)])]⟩ : MetricCollection Nat Nat)
        5 2 9 = ⟨[(0, [(2, 3)])], [(1, [(2, 4)])]⟩ :=
  c7_update_unregistered_noop _ 5 2 9 9 (by decide) (by decide)

/-! ## Theorems for claim C8 -/

theorem foldl_filter_skip {α β : Type} (f : β → α → β) (p : α → Bool)
    (hf : ∀ b x, p x = false → f b x = b) :
    ∀ (l : List α) (b : β), l.foldl f b = (l.filter p).foldl f b := by
  intro l
  induction l with
  | nil => intro b; rfl
  | cons x t ih =>
    intro b
    cases hpx : p x
    · simpa [List.filter_cons, hpx, hf b x hpx] using ih b
    · simpa [List.filter_cons, hpx] using ih (f b x)

theorem collectProgOne_skip (now : Nat) (c : MetricCollection ProgMetric ProgLabels)
    (item : Except Unit ProgSnapshot) (h : progSnapGood now item = false) :
    collectProgOne now c item = c := by
  cases item with
  | error e => rfl
  | ok info =>
    by_cases hn : info.name = []
    · simp [collectProgOne, hn]
    · simp [progSnapGood, hn] at h
      cases hopt : uptimeSince now info.loaded_at with
      | none => simp [collectProgOne, hn, hopt]
      | some u => rw [hopt] at h; simp at h

theorem collectMapOne_skip (c : MetricCollection MapMetric MapLabels)
    (item : Except Unit MapSnapshot) (h : mapSnapGood item = false) :
    collectMapOne c item = c := by
  cases item with
  | error e => rfl
  | ok info =>
    simp [mapSnapGood] at h
    simp [collectMapOne, h]

/-- C8: the collectors silently exclude failed snapshot elements, empty-name
entries, and (for programs) entries whose uptime computation fails: the
collection over a snapshot list equals the collection over its filtered
list, so such entries contribute no update to any family, and the collectors
are total (no error is raised). -/
theorem c8_soft_skip (now : Nat) (snaps : List (Except Unit ProgSnapshot))
    (c : MetricCollection ProgMetric ProgLabels)
    (msnaps : List (Except Unit MapSnapshot))
    (mc : MetricCollection MapMetric MapLabels) :
    collectProg now snaps c = collectProg now (snaps.filter (progSnapGood now)) c ∧
      collectMap msnaps mc = collectMap (msnaps.filter mapSnapGood) mc :=
  ⟨foldl_filter_skip _ _ (fun b x hx => collectProgOne_skip now b x hx) snaps c,
    foldl_filter_skip _ _ (fun b x hx => collectMapOne_skip b x hx) msnaps mc⟩

/-! ## Theorems for claim C10 -/

/-- C10: in `record_metrics`, when each newly observed counter value is at
least the stored one, the stored value after recording equals the observed
value (old + (observed − old)); and the delta is the unguarded wrapping
`u64` subtraction, which underflows to `2^64 − stored + observed` whenever
the observed value is smaller than the stored one. -/
theorem c10_record_metrics_delta (now : Nat) (fams : OpenMetricsFams)
    (info : EbpfProgInfo) (rt rc ut up : Nat)
    (hup : uptimeSince now info.loaded_at = some up)
    (hname : ¬ info.name = [])
    (hrt : assocLookup (ebpfLabelsOf info) fams.run_time_ns = some rt)
    (hrc : assocLookup (ebpfLabelsOf info) fams.run_cnt = some rc)
    (hut : assocLookup (ebpfLabelsOf info) fams.uptime = some ut)
    (hrt64 : info.run_time_ns < u64Mod) (hrc64 : info.run_cnt < u64Mod)
    (hup64 : up < u64Mod)
    (hrtm : rt ≤ info.run_time_ns) (hrcm : rc ≤ info.run_cnt) (hutm : ut ≤ up) :
    (assocLookup (ebpfLabelsOf info) (recordOne now fams (.ok info)).run_time_ns
        = some info.run_time_ns ∧
      assocLookup (ebpfLabelsOf info) (recordOne now fams (.ok info)).run_cnt
        = some info.run_cnt ∧
      assocLookup (ebpfLabelsOf info) (recordOne now fams (.ok info)).uptime
        = some up) ∧
    ∀ stored observed : Nat, observed < stored → stored < u64Mod →
      deltaU64 stored observed = u64Mod - stored + observed := by
  have hstep : ∀ stored observed : Nat, stored ≤ observed → observed < u64Mod →
      recordStep stored observed = observed := by
    intro stored observed hle hlt
    simp only [recordStep, deltaU64, u64Mod] at *
    omega
  refine ⟨?_, ?_⟩
  · simp only [recordOne, hname, if_false, hup]
    refine ⟨?_, ?_, ?_⟩
    · rw [familyRecord, hrt]
      simp only [Option.getD_some]
      rw [hstep rt info.run_time_ns hrtm hrt64]
      exact assocLookup_insert_self _ _ _
    · rw [familyRecord, hrc]
      simp only [Option.getD_some]
      rw [hstep rc info.run_cnt hrcm hrc64]
      exact assocLookup_insert_self _ _ _
    · rw [familyRecord, hut]
      simp only [Option.getD_some]
      rw [hstep ut up hutm hup64]
      exact assocLookup_insert_self _ _ _
  · intro stored observed hlt hst
    simp only [deltaU64, u64Mod] at *
    omega

/-- C10 (witness). -/
theorem c10_witness :
    (assocLookup (ebpfLabelsOf ⟨"f".toList, .ok "k".toList, 1, some 3, 10, 4⟩)
        (recordOne 5
          ⟨[(⟨1, "k".toList, "f".toList⟩, 7)], [(⟨1, "k".toList, "f".toList⟩, 2)],
            [(⟨1, "k".toList, "f".toList⟩, 1)]⟩
          (.ok ⟨"f".toList, .ok "k".toList, 1, some 3, 10, 4⟩)).run_time_ns
        = some 10 ∧
      assocLookup (ebpfLabelsOf ⟨"f".toList, .ok "k".toList, 1, some 3, 10, 4⟩)
        (recordOne 5
          ⟨[(⟨1, "k".toList, "f".toList⟩, 7)], [(⟨1, "k".toList, "f".toList⟩, 2)],
            [(⟨1, "k".toList, "f".toList⟩, 1)]⟩
          (.ok ⟨"f".toList, .ok "k".toList, 1, some 3, 10, 4⟩)).run_cnt
        = some 4 ∧
      assocLookup (ebpfLabelsOf ⟨"f".toList, .ok "k".toList, 1, some 3, 10, 4⟩)
        (recordOne 5
          ⟨[(⟨1, "k".toList, "f".toList⟩, 7)], [(⟨1, "k".toList, "f".toList⟩, 2)],
            [(⟨1, "k".toList, "f".toList⟩, 1)]⟩
          (.ok ⟨"f".toList, .ok "k".toList, 1, some 3, 10, 4⟩)).uptime
        = some 2) ∧
    deltaU64 5 3 = u64Mod - 5 + 3 := by
  have h := c10_record_metrics_delta 5
    ⟨[(⟨1, "k".toList, "f".toList⟩, 7)], [(⟨1, "k".toList, "f".toList⟩, 2)],
      [(⟨1, "k".toList, "f".toList⟩, 1)]⟩
    ⟨"f".toList, .ok "k".toList, 1, some 3, 10, 4⟩ 7 2 1 2
    (by decide) (by decide) (by decide) (by decide) (by decide)
    (by decide) (by decide) (by decide) (by decide) (by decide) (by decide)
  exact ⟨h.1, h.2 5 3 (by decide) (by decide)⟩

/-! ## Theorems for claim C3 -/

/-- C3 (amended): `deserialize` succeeds only when the residue left after
parsing all family sections is exactly the line `# EOF` with a trailing
newline; when the section fold succeeds but leaves any other residue, the
decoder panics through its `assert_eq!` rather than returning a parse error
to the caller. -/
theorem c3_eof_assertion :
    (∀ buf rest progs, deserialize buf = .ok rest progs → rest = eofMarker) ∧
    (∀ buf rest acc, foldMany0 parse_section foldStep [] buf = .ok rest acc →
      rest ≠ eofMarker → deserialize buf = .panicked) := by
  constructor
  · intro buf rest progs h
    unfold deserialize at h
    cases hfold : foldMany0 parse_section foldStep [] buf with
    | err e => rw [hfold] at h; exact absurd h (by simp)
    | ok r acc =>
      rw [hfold] at h
      by_cases hr : r = eofMarker
      · simp only [hr, if_pos rfl] at h
        cases h
        exact hr ▸ rfl
      · simp only [if_neg hr] at h
        exact absurd h (by simp)
  · intro buf rest acc hfold hne
    unfold deserialize
    rw [hfold]
    dsimp only
    rw [if_neg hne]

/-- C3 (counterexample): on the empty payload the section fold succeeds with
residue `""`, which differs from the end-of-payload marker, and the decoder
panics (`assert_eq!`) instead of returning a parse error to the caller. -/
theorem c3_counterexample : deserialize [] = DeserResult.panicked := by decide

/-- C3 (witness for the amended theorem). -/
theorem c3_witness :
    eofMarker = eofMarker ∧ deserialize [' '] = DeserResult.panicked :=
  ⟨c3_eof_assertion.1
      ("# HELP x y\n# TYPE x counter\n# UNIT x z\nebpf_execution_count_total\x7bid=\"7\",program_type=\"kprobe\",name=\"foo\"\x7d 42\n# EOF\n".toList)
      eofMarker
      [{ id := 7, bpf_type := "kprobe".toList, name := "foo".toList,
         prev_runtime_ns := 0, run_time_ns := 0, prev_run_cnt := 0,
         run_cnt := 42, uptime := 0, period_ns := 0, processes := [] }]
      (by decide),
    c3_eof_assertion.2 [' '] [' '] [] (by decide) (by decide)⟩

/-! ## Lemmas: decimal rendering round-trips through `uintLoop` -/

theorem msbFold_nil (acc : Nat) : msbFold acc [] = acc := rfl

theorem msbFold_cons (acc : Nat) (c : Char) (t : List Char) :
    msbFold acc (c :: t) = msbFold (acc * 10 + (c.toNat - 48)) t := rfl

theorem msbFold_append (acc : Nat) (xs ys : List Char) :
    msbFold acc (xs ++ ys) = msbFold (msbFold acc xs) ys :=
  List.foldl_append _ _ _ _

theorem msbFold_le (ds : List Char) : ∀ acc : Nat, acc ≤ msbFold acc ds := by
  induction ds with
  | nil => intro acc; exact Nat.le_refl acc
  | cons c t ih =>
    intro acc
    rw [msbFold_cons]
    exact Nat.le_trans (by omega) (ih (acc * 10 + (c.toNat - 48)))

theorem digitChar_isDigit (d : Nat) (h : d < 10) :
    (digitChar d).isDigit = true := by
  interval_cases d <;> decide

theorem digitChar_toNat (d : Nat) (h : d < 10) :
    (digitChar d).toNat - 48 = d := by
  interval_cases d <;> decide

theorem natCharsFuel_spec :
    ∀ fuel n : Nat, n < fuel →
      (∀ x ∈ natCharsFuel fuel n, x.isDigit = true) ∧
        natCharsFuel fuel n ≠ [] ∧ msbFold 0 (natCharsFuel fuel n) = n := by
  intro fuel
  induction fuel with
  | zero => intro n h; omega
  | succ fuel ih =>
    intro n hn
    by_cases h10 : n < 10
    · refine ⟨?_, ?_, ?_⟩
      · intro x hx
        simp only [natCharsFuel, if_pos h10, List.mem_singleton] at hx
        exact hx ▸ digitChar_isDigit n h10
      · simp [natCharsFuel, if_pos h10]
      · simp only [natCharsFuel, if_pos h10, msbFold_cons, msbFold_nil]
        rw [digitChar_toNat n h10]
        omega
    · have hdiv : n / 10 < fuel := by omega
      obtain ⟨hd, -, hval⟩ := ih (n / 10) hdiv
      have hm10 : n % 10 < 10 := Nat.mod_lt _ (by omega)
      refine ⟨?_, ?_, ?_⟩
      · intro x hx
        simp only [natCharsFuel, if_neg h10, List.mem_append,
          List.mem_singleton] at hx
        rcases hx with hx | hx
        · exact hd x hx
        · exact hx ▸ digitChar_isDigit _ hm10
      · simp [natCharsFuel, if_neg h10]
      · simp only [natCharsFuel, if_neg h10, msbFold_append, hval,
          msbFold_cons, msbFold_nil]
        rw [digitChar_toNat _ hm10]
        omega

theorem natChars_digits (n : Nat) : ∀ x ∈ natChars n, x.isDigit = true :=
  (natCharsFuel_spec (n + 1) n (Nat.lt_succ_self n)).1

theorem natChars_ne_nil (n : Nat) : natChars n ≠ [] :=
  (natCharsFuel_spec (n + 1) n (Nat.lt_succ_self n)).2.1

theorem msbFold_natChars (n : Nat) : msbFold 0 (natChars n) = n :=
  (natCharsFuel_spec (n + 1) n (Nat.lt_succ_self n)).2.2

theorem uintLoop_digits (maxVal : Nat) :
    ∀ (ds : List Char) (acc : Nat) (c : Char) (r : List Char),
      (∀ x ∈ ds, x.isDigit = true) → c.isDigit = false →
      msbFold acc ds ≤ maxVal →
      uintLoop maxVal acc false (ds ++ c :: r) = .ok (c :: r) (msbFold acc ds) := by
  intro ds
  induction ds with
  | nil =>
    intro acc c r _ hc _
    simp [uintLoop, hc, msbFold_nil]
  | cons d t ih =>
    intro acc c r hds hc hb
    have hd : d.isDigit = true := hds d (by simp)
    rw [msbFold_cons] at hb ⊢
    have hv : acc * 10 + (d.toNat - 48) ≤ maxVal :=
      Nat.le_trans (msbFold_le t _) hb
    simp only [List.cons_append, uintLoop, hd, if_true, hv, if_pos]
    exact ih _ c r (fun x hx => hds x (by simp [hx])) hc hb

theorem uintLoop_natChars (maxVal n : Nat) (hn : n ≤ maxVal) (rest : List Char)
    (c : Char) (hhead : rest.head? = some c) (hc : c.isDigit = false) :
    uintLoop maxVal 0 true (natChars n ++ rest) = .ok rest n := by
  cases rest with
  | nil => simp at hhead
  | cons cc r =>
    have hcc : cc = c := by simpa using hhead
    have hcd : cc.isDigit = false := by rw [hcc]; exact hc
    cases hnc : natChars n with
    | nil => exact absurd hnc (natChars_ne_nil n)
    | cons d ds =>
      have hdig := natChars_digits n
      rw [hnc] at hdig
      have hd : d.isDigit = true := hdig d (by simp)
      have hval : msbFold 0 (natChars n) = n := msbFold_natChars n
      rw [hnc, msbFold_cons] at hval
      have hv : 0 * 10 + (d.toNat - 48) ≤ maxVal := by
        refine Nat.le_trans (msbFold_le ds _) ?_
        rw [hval]; exact hn
      simp only [List.cons_append, uintLoop, hd, if_true, hv, if_pos,
        List.append_eq]
      rw [uintLoop_digits maxVal ds _ cc r (fun x hx => hdig x (by simp [hx])) hcd
        (by rw [hval]; exact hn), hval]

/-! ## Lemmas: the primitive parsers on rendered text -/

theorem tagC_exact (t r : List Char) : tagC t (t ++ r) = .ok r t := by
  simp [tagC, List.isPrefixOf_iff_prefix, List.prefix_append, List.drop_left]

theorem tagS_exact (t r : List Char) : tagS t (t ++ r) = .ok r t := by
  simp [tagS, List.isPrefixOf_iff_prefix, List.prefix_append, List.drop_left]

theorem tagS_ne_head (a b : Char) (ta tb : List Char) (h : a ≠ b) :
    tagS (a :: ta) (b :: tb) = .err .error := by
  simp [tagS, List.isPrefixOf_iff_prefix, List.cons_prefix_cons, h, Ne.symm h]

theorem charS_cons (c : Char) (r : List Char) : charS c (c :: r) = .ok r c := by
  simp [charS]

theorem charC_cons (c : Char) (r : List Char) : charC c (c :: r) = .ok r c := by
  simp [charC]

theorem singleton_isPrefixOf_cons (c x : Char) (xs : List Char) :
    ([c].isPrefixOf (x :: xs)) = (c == x) := by
  show (c == x && [].isPrefixOf xs) = (c == x)
  simp [List.isPrefixOf]

theorem findSub_singleton (c : Char) :
    ∀ (pre r : List Char), c ∉ pre →
      findSub [c] (pre ++ c :: r) = some pre.length := by
  intro pre
  induction pre with
  | nil =>
    intro r _
    simp only [List.nil_append, findSub, singleton_isPrefixOf_cons]
    simp
  | cons x t ih =>
    intro r h
    simp only [List.mem_cons, not_or] at h
    simp only [List.cons_append, findSub, singleton_isPrefixOf_cons]
    rw [beq_eq_false_iff_ne.mpr h.1]
    simp only [Bool.false_eq_true, if_false, List.append_eq, ih r h.2,
      List.length_cons]
    rfl

theorem takeUntilS_singleton (c : Char) (pre r : List Char) (h : c ∉ pre) :
    takeUntilS [c] (pre ++ c :: r) = .ok (c :: r) pre := by
  simp [takeUntilS, findSub_singleton c pre r h, List.drop_left, List.take_left]

theorem takeUntil1S_singleton (c : Char) (pre r : List Char) (h : c ∉ pre)
    (hne : pre ≠ []) :
    takeUntil1S [c] (pre ++ c :: r) = .ok (c :: r) pre := by
  rw [takeUntil1S, findSub_singleton c pre r h]
  obtain ⟨x, t, rfl⟩ := List.exists_cons_of_ne_nil hne
  simp [List.length_cons, List.drop_succ_cons, List.take_succ_cons,
    List.drop_left, List.take_left]

/-! ## `parse_metric` on a rendered sample line -/

theorem tagS_headMismatch {t i : List Char} {a b : Char} {t' i' : List Char}
    (ht : t = a :: t') (hi : i = b :: i') (hab : a ≠ b) :
    tagS t i = .err .error := by
  rw [ht, hi]
  exact tagS_ne_head a b t' i' hab

theorem parseName_render (mn Y : List Char)
    (h : mn = litRunTime ∨ mn = litExecution ∨ mn = litTimeLoaded) :
    delimitedP (tagC litEbpf)
      (pAlt (tagS litRunTime) (pAlt (tagS litExecution) (tagS litTimeLoaded)))
      (tagS litTotal) (litEbpf ++ (mn ++ (litTotal ++ Y))) = .ok Y mn := by
  unfold delimitedP
  rw [tagC_exact litEbpf (mn ++ (litTotal ++ Y))]
  dsimp only [andThen]
  rcases h with rfl | rfl | rfl
  · rw [show pAlt (tagS litRunTime)
        (pAlt (tagS litExecution) (tagS litTimeLoaded))
        (litRunTime ++ (litTotal ++ Y)) =
        .ok (litTotal ++ Y) litRunTime from by
      unfold pAlt
      rw [tagS_exact litRunTime (litTotal ++ Y)]]
    dsimp only [andThen]
    rw [tagS_exact litTotal Y]
  · rw [show pAlt (tagS litRunTime)
        (pAlt (tagS litExecution) (tagS litTimeLoaded))
        (litExecution ++ (litTotal ++ Y)) =
        .ok (litTotal ++ Y) litExecution from by
      unfold pAlt
      rw [tagS_headMismatch (t := litRunTime)
        (i := litExecution ++ (litTotal ++ Y)) rfl rfl (by decide)]
      rw [tagS_exact litExecution (litTotal ++ Y)]]
    dsimp only [andThen]
    rw [tagS_exact litTotal Y]
  · rw [show pAlt (tagS litRunTime)
        (pAlt (tagS litExecution) (tagS litTimeLoaded))
        (litTimeLoaded ++ (litTotal ++ Y)) =
        .ok (litTotal ++ Y) litTimeLoaded from by
      unfold pAlt
      rw [tagS_headMismatch (t := litRunTime)
        (i := litTimeLoaded ++ (litTotal ++ Y)) rfl rfl (by decide)]
      rw [tagS_headMismatch (t := litExecution)
        (i := litTimeLoaded ++ (litTotal ++ Y)) rfl rfl (by decide)]
      rw [tagS_exact litTimeLoaded (litTotal ++ Y)]]
    dsimp only [andThen]
    rw [tagS_exact litTotal Y]

theorem parseLabels_render (pid : Nat) (pt nm Z : List Char)
    (hid : pid < 2 ^ 32) (hpt : '"' ∉ pt) (hnm : '"' ∉ nm) :
    delimitedP (tagS litOpenLabel)
      (tuple3P nomU32
        (delimitedP (tagS litSepType) (takeUntilS litQuote) (tagS litSepName))
        (takeUntilS litQuote))
      (tagS litCloseLabel)
      (litOpenLabel ++ (natChars pid ++ (litSepType ++ (pt ++ (litSepName ++
        (nm ++ (litCloseLabel ++ Z))))))) = .ok Z (pid, pt, nm) := by
  unfold delimitedP tuple3P
  rw [tagS_exact litOpenLabel _]
  dsimp only [andThen]
  unfold nomU32
  rw [uintLoop_natChars (2 ^ 32 - 1) pid (by omega)
    (litSepType ++ (pt ++ (litSepName ++ (nm ++ (litCloseLabel ++ Z)))))
    '"' rfl (by decide)]
  dsimp only [andThen]
  rw [tagS_exact litSepType _]
  dsimp only [andThen]
  rw [show pt ++ (litSepName ++ (nm ++ (litCloseLabel ++ Z))) =
      pt ++ '"' :: (",name=\"".toList ++ (nm ++ (litCloseLabel ++ Z))) from rfl]
  rw [show litQuote = ['"'] from rfl]
  rw [takeUntilS_singleton '"' pt _ hpt]
  dsimp only [andThen]
  rw [show ('"' :: (",name=\"".toList ++ (nm ++ (litCloseLabel ++ Z)))) =
      litSepName ++ (nm ++ (litCloseLabel ++ Z)) from rfl]
  rw [tagS_exact litSepName _]
  dsimp only [andThen]
  rw [show nm ++ (litCloseLabel ++ Z) = nm ++ '"' :: ('\x7d' :: Z) from rfl]
  rw [takeUntilS_singleton '"' nm _ hnm]
  dsimp only [andThen]
  rw [show ('"' :: ('\x7d' :: Z)) = litCloseLabel ++ Z from rfl]
  rw [tagS_exact litCloseLabel Z]

theorem parseValue_render (v : Nat) (r : List Char) (hv : v < 2 ^ 64) :
    precededP (charS ' ') nomU64 (' ' :: (natChars v ++ '\n' :: r)) =
      .ok ('\n' :: r) v := by
  unfold precededP
  rw [charS_cons]
  dsimp only [andThen]
  unfold nomU64
  exact uintLoop_natChars _ v (by omega) ('\n' :: r) '\n' rfl (by decide)

theorem parse_metric_render (s : SampleData) (r : List Char) (hwf : SampleWF s) :
    parse_metric (renderMetric s ++ '\n' :: r) = .ok ('\n' :: r) (sampleVal s) := by
  obtain ⟨hname, hid, hval, hpt, hnm, -, -⟩ := hwf
  unfold parse_metric renderMetric
  simp only [List.append_assoc, List.cons_append]
  rw [parseName_render s.metricName _ hname]
  dsimp only [andThen]
  rw [parseLabels_render s.id s.progType s.name _ hid hpt hnm]
  dsimp only [andThen]
  rw [parseValue_render s.value r hval]
  rfl

/-! ## `parse_section` on a rendered section -/

theorem parse_metric_nil : parse_metric [] = .err .error := by decide

theorem parse_metric_err_uptime (s : SampleData) (r : List Char)
    (h : s.metricName = litUptimeNanos) :
    parse_metric (renderMetric s ++ r) = .err .error := by
  unfold parse_metric renderMetric
  rw [h]
  simp only [List.append_assoc, List.cons_append]
  rw [show delimitedP (tagC litEbpf)
      (pAlt (tagS litRunTime) (pAlt (tagS litExecution) (tagS litTimeLoaded)))
      (tagS litTotal)
      (litEbpf ++ (litUptimeNanos ++ (litTotal ++ (litOpenLabel ++
        (natChars s.id ++ (litSepType ++ (s.progType ++ (litSepName ++
          (s.name ++ (litCloseLabel ++ (' ' :: (natChars s.value ++ r)))))))))))) =
      .err .error from ?_]
  · rfl
  · unfold delimitedP
    rw [tagC_exact litEbpf _]
    dsimp only [andThen]
    rw [show pAlt (tagS litRunTime)
        (pAlt (tagS litExecution) (tagS litTimeLoaded))
        (litUptimeNanos ++ (litTotal ++ (litOpenLabel ++
          (natChars s.id ++ (litSepType ++ (s.progType ++ (litSepName ++
            (s.name ++ (litCloseLabel ++ (' ' :: (natChars s.value ++ r))))))))))) =
        .err .error from ?_]
    unfold pAlt
    rw [tagS_headMismatch (t := litRunTime)
      (i := litUptimeNanos ++ _) rfl rfl (by decide)]
    rw [tagS_headMismatch (t := litExecution)
      (i := litUptimeNanos ++ _) rfl rfl (by decide)]
    rw [tagS_headMismatch (t := litTimeLoaded)
      (i := litUptimeNanos ++ _) rfl rfl (by decide)]

theorem metaLine_render (m rest : List Char) (h1 : m ≠ []) (h2 : '\n' ∉ m) :
    metaLine ('#' :: (m ++ '\n' :: rest)) = .ok rest ('#', m, '\n') := by
  unfold metaLine tuple3P
  rw [charC_cons]
  dsimp only [andThen]
  rw [show litNewline = ['\n'] from rfl]
  rw [takeUntil1S_singleton '\n' m rest h2 h1]
  dsimp only [andThen]
  rw [charS_cons]

theorem countMeta_render (m1 m2 m3 rest : List Char)
    (h1 : MetaWF m1) (h2 : MetaWF m2) (h3 : MetaWF m3) :
    countN metaLine 3
      (renderMetaLine m1 ++ (renderMetaLine m2 ++ (renderMetaLine m3 ++ rest))) =
      .ok rest [('#', m1, '\n'), ('#', m2, '\n'), ('#', m3, '\n')] := by
  have e1 : renderMetaLine m1 ++ (renderMetaLine m2 ++ (renderMetaLine m3 ++ rest)) =
      '#' :: (m1 ++ '\n' :: (renderMetaLine m2 ++ (renderMetaLine m3 ++ rest))) := by
    simp [renderMetaLine]
  have e2 : renderMetaLine m2 ++ (renderMetaLine m3 ++ rest) =
      '#' :: (m2 ++ '\n' :: (renderMetaLine m3 ++ rest)) := by
    simp [renderMetaLine]
  have e3 : renderMetaLine m3 ++ rest = '#' :: (m3 ++ '\n' :: rest) := by
    simp [renderMetaLine]
  unfold countN
  rw [e1, metaLine_render m1 _ h1.1 h1.2]
  dsimp only [andThen]
  unfold countN
  rw [e2, metaLine_render m2 _ h2.1 h2.2]
  dsimp only [andThen]
  unfold countN
  rw [e3, metaLine_render m3 _ h3.1 h3.2]
  dsimp only [andThen]
  unfold countN
  rfl

theorem hash_not_mem_natChars (n : Nat) : '#' ∉ natChars n := by
  intro h
  have := natChars_digits n '#' h
  simp at this

theorem hash_not_mem_renderMetric (s : SampleData) (hmn : '#' ∉ s.metricName)
    (hpt : '#' ∉ s.progType) (hnm : '#' ∉ s.name) :
    '#' ∉ renderMetric s := by
  unfold renderMetric
  intro h
  simp only [List.mem_append, List.mem_cons] at h
  have hE : '#' ∉ litEbpf := by decide
  have hT : '#' ∉ litTotal := by decide
  have hO : '#' ∉ litOpenLabel := by decide
  have hST : '#' ∉ litSepType := by decide
  have hSN : '#' ∉ litSepName := by decide
  have hCL : '#' ∉ litCloseLabel := by decide
  have hsp : ¬ ('#' = ' ') := by decide
  have hid2 := hash_not_mem_natChars s.id
  have hv2 := hash_not_mem_natChars s.value
  tauto

theorem hash_not_mem_renderSamples (ss : List SampleData)
    (h : ∀ s ∈ ss, '#' ∉ renderMetric s) : '#' ∉ renderSamples ss := by
  induction ss with
  | nil => simp [renderSamples]
  | cons s t ih =>
    simp only [renderSamples, List.mem_append, List.mem_cons]
    push_neg
    exact ⟨h s (by simp), by decide, ih (fun x hx => h x (by simp [hx]))⟩

theorem renderSamples_length_cons (s : SampleData) (ss : List SampleData) :
    (renderSamples (s :: ss)).length =
      (renderMetric s).length + 1 + (renderSamples ss).length := by
  simp [renderSamples]
  omega

theorem sepLoop_renderSamples :
    ∀ (ss : List SampleData) (fuel : Nat) (acc : List MetricSample),
      (renderSamples ss).length < fuel → (∀ s ∈ ss, SampleWF s) →
      sepLoop (charC '\n') parse_metric fuel acc ('\n' :: renderSamples ss) =
        .ok ['\n'] (acc ++ ss.map sampleVal) := by
  intro ss
  induction ss with
  | nil =>
    intro fuel acc hfuel _
    cases fuel with
    | zero => omega
    | succ fuel =>
      unfold sepLoop
      rw [show renderSamples [] = [] from rfl, charC_cons]
      simp only [List.length_nil, List.length_cons]
      rw [if_neg (by omega)]
      rw [parse_metric_nil]
      simp
  | cons s ss ih =>
    intro fuel acc hfuel hwf
    cases fuel with
    | zero =>
      rw [renderSamples_length_cons] at hfuel
      omega
    | succ fuel =>
      unfold sepLoop
      rw [show renderSamples (s :: ss) = renderMetric s ++ '\n' :: renderSamples ss
        from rfl]
      rw [charC_cons]
      dsimp only
      rw [if_neg (by simp)]
      rw [parse_metric_render s (renderSamples ss) (hwf s (by simp))]
      dsimp only
      rw [ih fuel (acc ++ [sampleVal s])
        (by rw [renderSamples_length_cons] at hfuel; omega)
        (fun x hx => hwf x (by simp [hx]))]
      simp

theorem sepList0_renderSamples (ss : List SampleData) (hwf : ∀ s ∈ ss, SampleWF s) :
    ∃ rest, sepList0 (charC '\n') parse_metric (renderSamples ss) =
      .ok rest (ss.map sampleVal) := by
  cases ss with
  | nil =>
    refine ⟨[], ?_⟩
    unfold sepList0
    rw [show renderSamples [] = [] from rfl, parse_metric_nil]
    rfl
  | cons s ss =>
    refine ⟨['\n'], ?_⟩
    unfold sepList0
    rw [show renderSamples (s :: ss) = renderMetric s ++ '\n' :: renderSamples ss
      from rfl]
    rw [parse_metric_render s (renderSamples ss) (hwf s (by simp))]
    dsimp only
    rw [sepLoop_renderSamples ss _ [sampleVal s]
      (by simp only [List.length_cons]; omega)
      (fun x hx => hwf x (by simp [hx]))]
    simp

theorem parse_section_render (S : SectionData) (r : List Char)
    (hwf : SectionWF S) :
    parse_section (renderSection S ++ '#' :: r) = .ok ('#' :: r) (sectionVal S) := by
  obtain ⟨h1, h2, h3, hs⟩ := hwf
  unfold parse_section precededP
  rw [show renderSection S ++ '#' :: r =
      renderMetaLine S.meta1 ++ (renderMetaLine S.meta2 ++
        (renderMetaLine S.meta3 ++ (renderSamples S.samples ++ '#' :: r)))
    from by simp [renderSection]]
  rw [countMeta_render S.meta1 S.meta2 S.meta3 _ h1 h2 h3]
  dsimp only [andThen]
  rw [show litHash = ['#'] from rfl]
  rw [takeUntilS_singleton '#' (renderSamples S.samples) r
    (hash_not_mem_renderSamples S.samples
      (fun s hsm => hash_not_mem_renderMetric s
        (by rcases (hs s hsm).1 with h | h | h <;> rw [h] <;> decide)
        (hs s hsm).2.2.2.2.2.1 (hs s hsm).2.2.2.2.2.2))]
  dsimp only [andThen]
  obtain ⟨rest, hrest⟩ := sepList0_renderSamples S.samples hs
  rw [hrest]
  rfl

theorem parse_section_render_skip (S : SectionData) (r : List Char)
    (h1 : MetaWF S.meta1) (h2 : MetaWF S.meta2) (h3 : MetaWF S.meta3)
    (hup : ∀ s ∈ S.samples,
      s.metricName = litUptimeNanos ∧ '#' ∉ s.progType ∧ '#' ∉ s.name) :
    parse_section (renderSection S ++ '#' :: r) = .ok ('#' :: r) [] := by
  unfold parse_section precededP
  rw [show renderSection S ++ '#' :: r =
      renderMetaLine S.meta1 ++ (renderMetaLine S.meta2 ++
        (renderMetaLine S.meta3 ++ (renderSamples S.samples ++ '#' :: r)))
    from by simp [renderSection]]
  rw [countMeta_render S.meta1 S.meta2 S.meta3 _ h1 h2 h3]
  dsimp only [andThen]
  rw [show litHash = ['#'] from rfl]
  rw [takeUntilS_singleton '#' (renderSamples S.samples) r
    (hash_not_mem_renderSamples S.samples
      (fun s hsm => hash_not_mem_renderMetric s
        (by rw [(hup s hsm).1]; decide)
        (hup s hsm).2.1 (hup s hsm).2.2))]
  dsimp only [andThen]
  cases hss : S.samples with
  | nil =>
    rw [show renderSamples [] = [] from rfl]
    unfold sepList0
    rw [parse_metric_nil]
  | cons s ss =>
    rw [show renderSamples (s :: ss) = renderMetric s ++ '\n' :: renderSamples ss
      from rfl]
    unfold sepList0
    rw [parse_metric_err_uptime s _ ((hup s (by rw [hss]; simp)).1)]

/-! ## `fold_many0` over a rendered payload -/

theorem parse_section_eof : parse_section eofMarker = .err .error := rfl

theorem renderSection_length_pos (S : SectionData) :
    0 < (renderSection S).length := by
  simp [renderSection, renderMetaLine]

theorem renderPayload_cons_hash (L : List SectionData) :
    ∃ t, renderPayload L = '#' :: t := by
  cases L with
  | nil => exact ⟨" EOF\n".toList, rfl⟩
  | cons S L' =>
    exact ⟨(S.meta1 ++ ['\n']) ++ ((renderMetaLine S.meta2 ++
      (renderMetaLine S.meta3 ++ renderSamples S.samples)) ++ renderPayload L'),
      by simp [renderPayload, renderSection, renderMetaLine]⟩

theorem foldLoop_renderPayload :
    ∀ (L : List SectionData) (res : SectionData → List MetricSample),
      (∀ S ∈ L, ∀ rest, parse_section (renderSection S ++ '#' :: rest) =
        .ok ('#' :: rest) (res S)) →
      ∀ (fuel : Nat) (acc : List (Nat × BpfProgram)),
        (renderPayload L).length < fuel →
        foldLoop parse_section foldStep fuel acc (renderPayload L) =
          .ok eofMarker (L.foldl (fun a S => foldStep a (res S)) acc) := by
  intro L res
  induction L with
  | nil =>
    intro _ fuel acc hfuel
    cases fuel with
    | zero => simp at hfuel
    | succ fuel =>
      unfold foldLoop
      rw [show renderPayload [] = eofMarker from rfl, parse_section_eof]
      rfl
  | cons S L' ih =>
    intro hres fuel acc hfuel
    cases fuel with
    | zero => simp at hfuel
    | succ fuel =>
      have hlen : (renderPayload L').length < fuel := by
        rw [show renderPayload (S :: L') = renderSection S ++ renderPayload L'
          from rfl, List.length_append] at hfuel
        have := renderSection_length_pos S
        omega
      unfold foldLoop
      rw [show renderPayload (S :: L') = renderSection S ++ renderPayload L'
        from rfl]
      obtain ⟨t, ht⟩ := renderPayload_cons_hash L'
      rw [ht, hres S (by simp) t]
      dsimp only
      rw [if_neg (by
        simp only [List.length_append]
        have := renderSection_length_pos S
        omega)]
      rw [← ht]
      rw [ih (fun S2 hS2 rest => hres S2 (by simp [hS2]) rest) fuel
        (foldStep acc (res S)) hlen]
      rfl

/-- The decoded result of a rendered payload, given each section's parsed
sample list. -/
theorem deserialize_renderPayload (L : List SectionData)
    (res : SectionData → List MetricSample)
    (hres : ∀ S ∈ L, ∀ rest, parse_section (renderSection S ++ '#' :: rest) =
      .ok ('#' :: rest) (res S)) :
    deserialize (renderPayload L) =
      .ok eofMarker
        ((L.foldl (fun a S => foldStep a (res S)) []).map Prod.snd) := by
  unfold deserialize foldMany0
  rw [foldLoop_renderPayload L res hres ((renderPayload L).length + 1) []
    (by omega)]
  dsimp only
  rw [if_pos rfl]

/-! ## The `BTreeMap` model: sortedness and id invariants -/

theorem btreeUpd_key_mem (k : Nat) (f : BpfProgram → BpfProgram)
    (d : BpfProgram) :
    ∀ (m : List (Nat × BpfProgram)) (q : Nat × BpfProgram),
      q ∈ btreeUpd k f d m → q.1 = k ∨ q.1 ∈ m.map Prod.fst := by
  intro m
  induction m with
  | nil =>
    intro q hq
    simp [btreeUpd] at hq
    simp [hq]
  | cons p t ih =>
    intro q hq
    by_cases h1 : k < p.1
    · simp only [btreeUpd, if_pos h1, List.mem_cons] at hq
      rcases hq with rfl | rfl | hq
      · exact Or.inl rfl
      · exact Or.inr (by simp)
      · refine Or.inr ?_
        simp only [List.map_cons, List.mem_cons]
        exact Or.inr (List.mem_map_of_mem Prod.fst hq)
    · rw [btreeUpd, if_neg h1] at hq
      by_cases h2 : k = p.1
      · rw [if_pos h2] at hq
        simp only [List.mem_cons] at hq
        rcases hq with rfl | hq
        · exact Or.inl h2.symm
        · refine Or.inr ?_
          simp only [List.map_cons, List.mem_cons]
          exact Or.inr (List.mem_map_of_mem Prod.fst hq)
      · rw [if_neg h2] at hq
        simp only [List.mem_cons] at hq
        rcases hq with rfl | hq
        · exact Or.inr (by simp)
        · rcases ih q hq with h | h
          · exact Or.inl h
          · refine Or.inr ?_
            simp only [List.map_cons, List.mem_cons]
            exact Or.inr h

theorem btreeUpd_sorted (k : Nat) (f : BpfProgram → BpfProgram)
    (d : BpfProgram) :
    ∀ m : List (Nat × BpfProgram), BtSorted m → BtSorted (btreeUpd k f d m) := by
  intro m
  induction m with
  | nil => intro _; simp [btreeUpd, BtSorted]
  | cons p t ih =>
    intro hs
    rw [BtSorted, List.pairwise_cons] at hs
    obtain ⟨hhead, htail⟩ := hs
    by_cases h1 : k < p.1
    · rw [btreeUpd, if_pos h1]
      rw [BtSorted, List.pairwise_cons]
      refine ⟨?_, ?_⟩
      · intro q hq
        simp only [List.mem_cons] at hq
        rcases hq with rfl | hq
        · exact h1
        · exact Nat.lt_trans h1 (hhead q hq)
      · rw [BtSorted, List.pairwise_cons] at *
        exact ⟨hhead, htail⟩
    · by_cases h2 : k = p.1
      · rw [btreeUpd, if_neg h1, if_pos h2]
        rw [BtSorted, List.pairwise_cons]
        exact ⟨hhead, htail⟩
      · rw [btreeUpd, if_neg h1, if_neg h2]
        rw [BtSorted, List.pairwise_cons]
        refine ⟨?_, ih htail⟩
        intro q hq
        rcases btreeUpd_key_mem k f d t q hq with h | h
        · rw [h]; omega
        · obtain ⟨q', hq', hq'1⟩ := List.mem_map.mp h
          rw [← hq'1]
          exact hhead q' hq'

theorem assocLookup_none_of_forall {k : Nat} :
    ∀ m : List (Nat × BpfProgram), (∀ p ∈ m, k ≠ p.1) →
      assocLookup k m = none := by
  intro m
  induction m with
  | nil => intro _; rfl
  | cons p t ih =>
    intro h
    obtain ⟨k0, v⟩ := p
    simp only [assocLookup]
    rw [if_neg (h (k0, v) (by simp))]
    exact ih (fun q hq => h q (by simp [hq]))

theorem assocLookup_mem_of_some {k : Nat} {v0 : BpfProgram} :
    ∀ m : List (Nat × BpfProgram), assocLookup k m = some v0 →
      k ∈ m.map Prod.fst := by
  intro m
  induction m with
  | nil => intro h; simp [assocLookup] at h
  | cons p t ih =>
    intro h
    obtain ⟨k0, v⟩ := p
    by_cases hk : k = k0
    · simp [hk]
    · simp only [assocLookup, if_neg hk] at h
      simp only [List.map_cons, List.mem_cons]
      exact Or.inr (ih h)

theorem assocLookup_btreeUpd (k : Nat) (f : BpfProgram → BpfProgram)
    (d : BpfProgram) :
    ∀ (m : List (Nat × BpfProgram)), BtSorted m → ∀ k' : Nat,
      assocLookup k' (btreeUpd k f d m) =
        if k' = k then some (f ((assocLookup k m).getD d))
        else assocLookup k' m := by
  intro m
  induction m with
  | nil =>
    intro _ k'
    by_cases h : k' = k
    · simp [btreeUpd, assocLookup, h]
    · simp [btreeUpd, assocLookup, h]
  | cons p t ih =>
    intro hs k'
    obtain ⟨k0, v⟩ := p
    rw [BtSorted, List.pairwise_cons] at hs
    obtain ⟨hhead, htail⟩ := hs
    by_cases h1 : k < k0
    · rw [btreeUpd, if_pos h1]
      have hkm : assocLookup k ((k0, v) :: t) = none := by
        refine assocLookup_none_of_forall _ ?_
        intro q hq
        simp only [List.mem_cons] at hq
        rcases hq with rfl | hq
        · show k ≠ k0; omega
        · have h3 : k0 < q.1 := hhead q hq
          omega
      rw [hkm]
      by_cases h : k' = k
      · simp [assocLookup, h]
      · simp only [assocLookup, if_neg h]
    · by_cases h2 : k = k0
      · subst h2
        rw [btreeUpd, if_neg h1, if_pos rfl]
        by_cases h : k' = k
        · simp [assocLookup, h]
        · simp [assocLookup, h]
      · rw [btreeUpd, if_neg h1, if_neg h2]
        by_cases h : k' = k0
        · have hk'k : ¬ k' = k := by omega
          subst h
          rw [if_neg hk'k]
          simp [assocLookup]
        · simp only [assocLookup, if_neg h]
          rw [ih htail k']
          by_cases hk : k' = k
          · rw [if_pos hk, if_pos hk, if_neg h2]
          · rw [if_neg hk, if_neg hk]

theorem btreeUpd_length_of_none (k : Nat) (f : BpfProgram → BpfProgram)
    (d : BpfProgram) :
    ∀ m : List (Nat × BpfProgram), assocLookup k m = none →
      (btreeUpd k f d m).length = m.length + 1 := by
  intro m
  induction m with
  | nil => intro _; rfl
  | cons p t ih =>
    intro h
    obtain ⟨k0, v⟩ := p
    have hne : ¬ k = k0 := by
      intro hc
      simp [assocLookup, hc] at h
    have ht : assocLookup k t = none := by
      simpa [assocLookup, hne] using h
    by_cases h1 : k < k0
    · simp [btreeUpd, if_pos h1]
    · simp [btreeUpd, if_neg h1, if_neg hne, ih ht]

theorem btreeUpd_length_of_some (k : Nat) (f : BpfProgram → BpfProgram)
    (d : BpfProgram) :
    ∀ (m : List (Nat × BpfProgram)) (v0 : BpfProgram), BtSorted m →
      assocLookup k m = some v0 →
      (btreeUpd k f d m).length = m.length := by
  intro m
  induction m with
  | nil => intro v0 _ h; simp [assocLookup] at h
  | cons p t ih =>
    intro v0 hs h
    obtain ⟨k0, v⟩ := p
    rw [BtSorted, List.pairwise_cons] at hs
    obtain ⟨hhead, htail⟩ := hs
    by_cases h2 : k = k0
    · have h1 : ¬ k < k0 := by omega
      simp [btreeUpd, if_neg h1, if_pos h2]
    · have ht : assocLookup k t = some v0 := by
        simpa [assocLookup, h2] using h
      have hmem : k ∈ t.map Prod.fst := assocLookup_mem_of_some t ht
      obtain ⟨q, hq, hq1⟩ := List.mem_map.mp hmem
      have hk0k : k0 < k := hq1 ▸ hhead q hq
      have h1 : ¬ k < k0 := by omega
      simp [btreeUpd, if_neg h1, if_neg h2, ih v0 htail ht]

theorem setMetricField_id (mn : List Char) (cnt : Nat) (p : BpfProgram) :
    (setMetricField mn cnt p).id = p.id := by
  unfold setMetricField
  split_ifs <;> rfl

theorem btreeUpd_idsMatch (k : Nat) (f : BpfProgram → BpfProgram)
    (d : BpfProgram) (hf : ∀ p, (f p).id = p.id) (hd : d.id = k) :
    ∀ m : List (Nat × BpfProgram), IdsMatch m → IdsMatch (btreeUpd k f d m) := by
  intro m
  induction m with
  | nil =>
    intro _ q hq
    simp only [btreeUpd, List.mem_singleton] at hq
    rw [hq]
    simp [hf d, hd]
  | cons p t ih =>
    intro hm q hq
    obtain ⟨k0, v⟩ := p
    by_cases h1 : k < k0
    · rw [btreeUpd, if_pos h1] at hq
      simp only [List.mem_cons] at hq
      rcases hq with rfl | rfl | hq
      · simp [hf d, hd]
      · exact hm (k0, v) (by simp)
      · exact hm q (by simp [hq])
    · by_cases h2 : k = k0
      · rw [btreeUpd, if_neg h1, if_pos h2] at hq
        simp only [List.mem_cons] at hq
        rcases hq with rfl | hq
        · have := hm (k0, v) (by simp)
          simp only at this ⊢
          rw [hf v, this]
        · exact hm q (by simp [hq])
      · rw [btreeUpd, if_neg h1, if_neg h2] at hq
        simp only [List.mem_cons] at hq
        rcases hq with rfl | hq
        · exact hm (k0, v) (by simp)
        · exact ih (fun q2 hq2 => hm q2 (by simp [hq2])) q hq

theorem applyMetric_inv (m : List (Nat × BpfProgram)) (s : MetricSample)
    (hs : BtSorted m) (hi : IdsMatch m) :
    BtSorted (applyMetric m s) ∧ IdsMatch (applyMetric m s) := by
  constructor
  · exact btreeUpd_sorted _ _ _ m hs
  · exact btreeUpd_idsMatch s.2.1.1 (setMetricField s.1 s.2.2)
      (defaultProg s.2.1.1 s.2.1.2.1 s.2.1.2.2) (setMetricField_id s.1 s.2.2)
      rfl m hi

theorem foldl_applyMetric_inv (l : List MetricSample) :
    ∀ m : List (Nat × BpfProgram), BtSorted m → IdsMatch m →
      BtSorted (l.foldl applyMetric m) ∧ IdsMatch (l.foldl applyMetric m) := by
  induction l with
  | nil => intro m hs hi; exact ⟨hs, hi⟩
  | cons s t ih =>
    intro m hs hi
    obtain ⟨hs', hi'⟩ := applyMetric_inv m s hs hi
    exact ih (applyMetric m s) hs' hi'

theorem foldLoop_parse_inv :
    ∀ (fuel : Nat) (acc : List (Nat × BpfProgram)) (input rest : List Char)
      (acc' : List (Nat × BpfProgram)),
      BtSorted acc → IdsMatch acc →
      foldLoop parse_section foldStep fuel acc input = .ok rest acc' →
      BtSorted acc' ∧ IdsMatch acc' := by
  intro fuel
  induction fuel with
  | zero =>
    intro acc input rest acc' _ _ h
    exact absurd h (by simp [foldLoop])
  | succ fuel ih =>
    intro acc input rest acc' hs hi h
    unfold foldLoop at h
    cases hps : parse_section input with
    | err e =>
      rw [hps] at h
      cases e with
      | error =>
        have : acc = acc' := by
          have h2 := h
          simp only at h2
          cases h2
          rfl
        exact this ▸ ⟨hs, hi⟩
      | incomplete => simp at h
    | ok i1 o =>
      rw [hps] at h
      dsimp only at h
      by_cases hlen : i1.length = input.length
      · rw [if_pos hlen] at h
        simp at h
      · rw [if_neg hlen] at h
        obtain ⟨hs', hi'⟩ := foldl_applyMetric_inv o acc hs hi
        exact ih (foldStep acc o) i1 rest acc' hs' hi' h

/-- C9: whenever `deserialize` succeeds, the returned records are in
strictly ascending entity-id order — in particular there is exactly one
record per distinct id (the ids are pairwise distinct), as produced by the
fold into the id-keyed sorted map. -/
theorem c9_sorted_by_id (buf rest : List Char) (progs : List BpfProgram)
    (h : deserialize buf = .ok rest progs) :
    (progs.map (fun p => p.id)).Pairwise (· < ·) ∧
      (progs.map (fun p => p.id)).Nodup := by
  unfold deserialize at h
  cases hf : foldMany0 parse_section foldStep [] buf with
  | err e => rw [hf] at h; exact absurd h (by simp)
  | ok r acc =>
    rw [hf] at h
    dsimp only at h
    by_cases hr : r = eofMarker
    · rw [if_pos hr] at h
      have hprogs : progs = acc.map Prod.snd := by
        cases h
        rfl
      unfold foldMany0 at hf
      obtain ⟨hsort, hids⟩ := foldLoop_parse_inv (buf.length + 1) [] buf r acc
        (by simp [BtSorted]) (by intro p hp; simp at hp) hf
      have hmap : progs.map (fun p => p.id) = acc.map Prod.fst := by
        rw [hprogs, List.map_map]
        exact List.map_congr_left (fun p hp => hids p hp)
      rw [hmap]
      constructor
      · exact (List.pairwise_map).mpr hsort
      · exact List.Pairwise.imp (fun hlt => Nat.ne_of_lt hlt)
          ((List.pairwise_map).mpr hsort)
    · rw [if_neg hr] at h
      exact absurd h (by simp)

set_option maxRecDepth 8000 in
/-- C9 (witness): a payload listing id 7 before id 3 decodes to records in
ascending id order. -/
theorem c9_witness :
    (([progIdThree, progIdSeven]).map (fun p => p.id)).Pairwise (· < ·) ∧
      (([progIdThree, progIdSeven]).map (fun p => p.id)).Nodup :=
  c9_sorted_by_id
    ("# H\n# T\n# U\nebpf_execution_count_total\x7bid=\"7\",program_type=\"k\",name=\"a\"\x7d 1\nebpf_execution_count_total\x7bid=\"3\",program_type=\"k\",name=\"b\"\x7d 2\n# EOF\n".toList)
    eofMarker [progIdThree, progIdSeven] (by decide)

/-! ## Lookup and length characterization of the sample fold -/

theorem assocLookup_some_mem {k : Nat} {v : BpfProgram} :
    ∀ m : List (Nat × BpfProgram), assocLookup k m = some v → (k, v) ∈ m := by
  intro m
  induction m with
  | nil => intro h; simp [assocLookup] at h
  | cons p t ih =>
    intro h
    obtain ⟨k0, v0⟩ := p
    by_cases hk : k = k0
    · simp only [assocLookup, if_pos hk] at h
      cases h
      simp [hk]
    · simp only [assocLookup, if_neg hk] at h
      exact List.mem_cons_of_mem _ (ih h)

theorem fold_applyMetric_lookup :
    ∀ (l : List MetricSample) (m : List (Nat × BpfProgram)), BtSorted m →
      (l.map (fun s => s.2.1.1)).Nodup →
      ∀ k : Nat,
        assocLookup k (l.foldl applyMetric m) =
          match l.find? (fun s => s.2.1.1 == k) with
          | some s => some (setMetricField s.1 s.2.2
              ((assocLookup k m).getD (defaultProg s.2.1.1 s.2.1.2.1 s.2.1.2.2)))
          | none => assocLookup k m := by
  intro l
  induction l with
  | nil => intro m _ _ k; rfl
  | cons s l' ih =>
    intro m hs hnd k
    simp only [List.map_cons, List.nodup_cons] at hnd
    obtain ⟨hsid, hnd'⟩ := hnd
    have hs1 : BtSorted (applyMetric m s) := btreeUpd_sorted _ _ _ m hs
    have hstep := assocLookup_btreeUpd s.2.1.1 (setMetricField s.1 s.2.2)
      (defaultProg s.2.1.1 s.2.1.2.1 s.2.1.2.2) m hs
    rw [List.foldl_cons, ih (applyMetric m s) hs1 hnd' k]
    by_cases hks : s.2.1.1 = k
    · have hfind : l'.find? (fun x => x.2.1.1 == k) = none := by
        refine List.find?_eq_none.mpr ?_
        intro x hx
        simp only [beq_iff_eq]
        intro hxk
        exact hsid (by
          rw [hks, ← hxk]
          exact List.mem_map_of_mem _ hx)
      rw [hfind]
      rw [List.find?_cons_of_pos _ (by simp [hks])]
      show assocLookup k (applyMetric m s) = _
      unfold applyMetric
      rw [hstep k, if_pos (by omega)]
      dsimp only
      rw [hks]
    · rw [List.find?_cons_of_neg _ (by simp [hks])]
      have hlk : assocLookup k (applyMetric m s) = assocLookup k m := by
        unfold applyMetric
        rw [hstep k, if_neg (by omega)]
      cases hfind : l'.find? (fun x => x.2.1.1 == k) with
      | none => rw [hlk]
      | some x => rw [hlk]

theorem fold_applyMetric_length_fresh :
    ∀ (l : List MetricSample) (m : List (Nat × BpfProgram)), BtSorted m →
      (l.map (fun s => s.2.1.1)).Nodup →
      (∀ s ∈ l, assocLookup s.2.1.1 m = none) →
      (l.foldl applyMetric m).length = m.length + l.length := by
  intro l
  induction l with
  | nil => intro m _ _ _; rfl
  | cons s l' ih =>
    intro m hs hnd hfresh
    simp only [List.map_cons, List.nodup_cons] at hnd
    obtain ⟨hsid, hnd'⟩ := hnd
    have hs1 : BtSorted (applyMetric m s) := btreeUpd_sorted _ _ _ m hs
    have hstep := assocLookup_btreeUpd s.2.1.1 (setMetricField s.1 s.2.2)
      (defaultProg s.2.1.1 s.2.1.2.1 s.2.1.2.2) m hs
    rw [List.foldl_cons, ih (applyMetric m s) hs1 hnd' ?_]
    · have : (applyMetric m s).length = m.length + 1 :=
        btreeUpd_length_of_none _ _ _ m (hfresh s (by simp))
      rw [this]
      simp only [List.length_cons]
      omega
    · intro x hx
      show assocLookup x.2.1.1 (applyMetric m s) = none
      unfold applyMetric
      rw [hstep x.2.1.1, if_neg ?_]
      · exact hfresh x (by simp [hx])
      · intro hc
        exact hsid (by rw [← hc]; exact List.mem_map_of_mem _ hx)

theorem fold_applyMetric_length_present :
    ∀ (l : List MetricSample) (m : List (Nat × BpfProgram)), BtSorted m →
      (∀ s ∈ l, (assocLookup s.2.1.1 m).isSome) →
      (l.foldl applyMetric m).length = m.length := by
  intro l
  induction l with
  | nil => intro m _ _; rfl
  | cons s l' ih =>
    intro m hs hpre
    have hs1 : BtSorted (applyMetric m s) := btreeUpd_sorted _ _ _ m hs
    have hstep := assocLookup_btreeUpd s.2.1.1 (setMetricField s.1 s.2.2)
      (defaultProg s.2.1.1 s.2.1.2.1 s.2.1.2.2) m hs
    obtain ⟨v0, hv0⟩ := Option.isSome_iff_exists.mp (hpre s (by simp))
    rw [List.foldl_cons, ih (applyMetric m s) hs1 ?_]
    · exact btreeUpd_length_of_some _ _ _ m v0 hs hv0
    · intro x hx
      show (assocLookup x.2.1.1 (applyMetric m s)).isSome
      unfold applyMetric
      rw [hstep x.2.1.1]
      by_cases hxk : x.2.1.1 = s.2.1.1
      · rw [if_pos hxk]; rfl
      · rw [if_neg hxk]
        exact hpre x (by simp [hx])

/-! ## Claim C1: the round trip `deserialize ∘ scrape_metrics` -/

theorem setField_runtime (v : Nat) (p : BpfProgram) :
    setMetricField litRunTime v p = { p with run_time_ns := v } := by
  unfold setMetricField
  rw [if_pos rfl]

theorem setField_exec (v : Nat) (p : BpfProgram) :
    setMetricField litExecution v p = { p with run_cnt := v } := by
  unfold setMetricField
  rw [if_neg (by decide), if_pos rfl]

theorem find?_id_nodup :
    ∀ st : List EbpfEntry, (st.map (fun e => e.id)).Nodup →
      ∀ e ∈ st, st.find? (fun x => x.id == e.id) = some e := by
  intro st
  induction st with
  | nil => intro _ e he; simp at he
  | cons a t ih =>
    intro hnd e he
    simp only [List.map_cons, List.nodup_cons] at hnd
    obtain ⟨haid, hnd'⟩ := hnd
    rcases List.mem_cons.mp he with rfl | het
    · rw [List.find?_cons_of_pos _ (by simp)]
    · have hpa : (a.id == e.id) = false := by
        simp only [beq_eq_false_iff_ne, ne_eq]
        intro hc
        exact haid (hc ▸ List.mem_map_of_mem _ het)
      simp only [List.find?]
      rw [hpa]
      exact ih hnd' e het

theorem c1_samples_runTime (st : List EbpfEntry) :
    (runTimeSection st).samples =
      st.map (fun e => ⟨litRunTime, e.id, e.progType, e.name, e.runTime⟩) := rfl

theorem c1_samples_exec (st : List EbpfEntry) :
    (execSection st).samples =
      st.map (fun e => ⟨litExecution, e.id, e.progType, e.name, e.runCnt⟩) := rfl

theorem c1_samplesWF1 (st : List EbpfEntry) (hwf : ∀ e ∈ st, EntryWF e) :
    ∀ s ∈ (runTimeSection st).samples, SampleWF s := by
  intro s hs
  rw [c1_samples_runTime] at hs
  obtain ⟨e, he, rfl⟩ := List.mem_map.mp hs
  obtain ⟨h1, h2, -, -, h5, h6, h7, h8, -⟩ := hwf e he
  exact ⟨Or.inl rfl, h1, h2, h5, h6, h7, h8⟩

theorem c1_samplesWF2 (st : List EbpfEntry) (hwf : ∀ e ∈ st, EntryWF e) :
    ∀ s ∈ (execSection st).samples, SampleWF s := by
  intro s hs
  rw [c1_samples_exec] at hs
  obtain ⟨e, he, rfl⟩ := List.mem_map.mp hs
  obtain ⟨h1, -, h3, -, h5, h6, h7, h8, -⟩ := hwf e he
  exact ⟨Or.inr (Or.inl rfl), h1, h3, h5, h6, h7, h8⟩

theorem c1_up3 (st : List EbpfEntry) (hwf : ∀ e ∈ st, EntryWF e) :
    ∀ s ∈ (uptimeSection st).samples,
      s.metricName = litUptimeNanos ∧ '#' ∉ s.progType ∧ '#' ∉ s.name := by
  intro s hs
  obtain ⟨e, he, rfl⟩ := List.mem_map.mp hs
  obtain ⟨-, -, -, -, -, -, h7, h8, -⟩ := hwf e he
  exact ⟨rfl, h7, h8⟩

theorem c1_res1 (st : List EbpfEntry) (hwf : ∀ e ∈ st, EntryWF e) :
    c1SectionRes (runTimeSection st) = (runTimeSection st).samples.map sampleVal := by
  unfold c1SectionRes
  rw [List.filter_eq_self.mpr
    (fun s hs => decide_eq_true (c1_samplesWF1 st hwf s hs))]

theorem c1_res2 (st : List EbpfEntry) (hwf : ∀ e ∈ st, EntryWF e) :
    c1SectionRes (execSection st) = (execSection st).samples.map sampleVal := by
  unfold c1SectionRes
  rw [List.filter_eq_self.mpr
    (fun s hs => decide_eq_true (c1_samplesWF2 st hwf s hs))]

theorem c1_res3 (st : List EbpfEntry) (hwf : ∀ e ∈ st, EntryWF e) :
    c1SectionRes (uptimeSection st) = [] := by
  unfold c1SectionRes
  rw [List.filter_eq_nil_iff.mpr ?_]
  · rfl
  · intro s hs
    have hname := (c1_up3 st hwf s hs).1
    simp only [decide_eq_true_eq]
    intro hSW
    rcases hSW.1 with h | h | h <;> rw [hname] at h <;> exact absurd h (by decide)

theorem c1_hres (st : List EbpfEntry) (hwf : ∀ e ∈ st, EntryWF e) :
    ∀ S ∈ [runTimeSection st, execSection st, uptimeSection st], ∀ rest,
      parse_section (renderSection S ++ '#' :: rest) =
        .ok ('#' :: rest) (c1SectionRes S) := by
  intro S hS rest
  simp only [List.mem_cons, List.not_mem_nil, or_false] at hS
  rcases hS with rfl | rfl | rfl
  · rw [parse_section_render _ rest
      ⟨(by decide : MetaWF metaHelpRunTime), (by decide : MetaWF metaTypeRunTime),
        (by decide : MetaWF metaUnitRunTime), c1_samplesWF1 st hwf⟩]
    rw [c1_res1 st hwf]
    rfl
  · rw [parse_section_render _ rest
      ⟨(by decide : MetaWF metaHelpExec), (by decide : MetaWF metaTypeExec),
        (by decide : MetaWF metaUnitExec), c1_samplesWF2 st hwf⟩]
    rw [c1_res2 st hwf]
    rfl
  · rw [parse_section_render_skip _ rest (by decide : MetaWF metaHelpUptime)
      (by decide : MetaWF metaTypeUptime) (by decide : MetaWF metaUnitUptime)
      (c1_up3 st hwf)]
    rw [c1_res3 st hwf]

theorem c1_nd1 (st : List EbpfEntry) (hids : (st.map (fun e => e.id)).Nodup) :
    (((runTimeSection st).samples.map sampleVal).map (fun s => s.2.1.1)).Nodup := by
  rw [c1_samples_runTime, List.map_map, List.map_map]
  exact hids

theorem c1_nd2 (st : List EbpfEntry) (hids : (st.map (fun e => e.id)).Nodup) :
    (((execSection st).samples.map sampleVal).map (fun s => s.2.1.1)).Nodup := by
  rw [c1_samples_exec, List.map_map, List.map_map]
  exact hids

theorem c1_find1 (st : List EbpfEntry) (hids : (st.map (fun e => e.id)).Nodup)
    (e : EbpfEntry) (he : e ∈ st) :
    ((runTimeSection st).samples.map sampleVal).find? (fun s => s.2.1.1 == e.id) =
      some (sampleVal ⟨litRunTime, e.id, e.progType, e.name, e.runTime⟩) := by
  rw [c1_samples_runTime, List.map_map, List.find?_map]
  rw [show ((fun s : MetricSample => s.2.1.1 == e.id) ∘
      (sampleVal ∘ fun x : EbpfEntry =>
        (⟨litRunTime, x.id, x.progType, x.name, x.runTime⟩ : SampleData))) =
    (fun x : EbpfEntry => x.id == e.id) from rfl]
  rw [find?_id_nodup st hids e he]
  rfl

theorem c1_find2 (st : List EbpfEntry) (hids : (st.map (fun e => e.id)).Nodup)
    (e : EbpfEntry) (he : e ∈ st) :
    ((execSection st).samples.map sampleVal).find? (fun s => s.2.1.1 == e.id) =
      some (sampleVal ⟨litExecution, e.id, e.progType, e.name, e.runCnt⟩) := by
  rw [c1_samples_exec, List.map_map, List.find?_map]
  rw [show ((fun s : MetricSample => s.2.1.1 == e.id) ∘
      (sampleVal ∘ fun x : EbpfEntry =>
        (⟨litExecution, x.id, x.progType, x.name, x.runCnt⟩ : SampleData))) =
    (fun x : EbpfEntry => x.id == e.id) from rfl]
  rw [find?_id_nodup st hids e he]
  rfl

theorem c1_rec1 (st : List EbpfEntry) (hids : (st.map (fun e => e.id)).Nodup)
    (e : EbpfEntry) (he : e ∈ st) :
    assocLookup e.id
        (((runTimeSection st).samples.map sampleVal).foldl applyMetric []) =
      some ⟨e.id, e.progType, e.name, 0, e.runTime, 0, 0, 0, 0, []⟩ := by
  rw [fold_applyMetric_lookup _ []
    (show BtSorted [] from List.Pairwise.nil) (c1_nd1 st hids) e.id]
  rw [c1_find1 st hids e he]
  dsimp only
  rw [show assocLookup e.id ([] : List (Nat × BpfProgram)) = none from rfl]
  rw [show (sampleVal ⟨litRunTime, e.id, e.progType, e.name, e.runTime⟩).1 =
    litRunTime from rfl]
  rw [Option.getD_none, setField_runtime]
  rfl

/-- C1 (amended): for every registry state of N distinct-id label sets whose
string labels need no escaping, decoding the encoded payload succeeds and
yields exactly N records — a permutation of the expected records — whose id,
name, program type, run-time and run-count match the encoded values; the
uptime value is NOT recovered (the decoder expects the sample name
`time_loaded_nanoseconds` while the encoder emits `uptime_nanoseconds`), so
each decoded record's `uptime` is 0. -/
theorem c1_round_trip_no_uptime (st : List EbpfEntry)
    (hwf : ∀ e ∈ st, EntryWF e) (hids : (st.map (fun e => e.id)).Nodup) :
    ∃ progs, deserialize (scrape_metrics st) = .ok eofMarker progs ∧
      progs.Perm (st.map decodedRecord) := by
  have hdec := deserialize_renderPayload
    [runTimeSection st, execSection st, uptimeSection st] c1SectionRes
    (c1_hres st hwf)
  rw [show scrape_metrics st =
    renderPayload [runTimeSection st, execSection st, uptimeSection st]
    from rfl]
  refine ⟨_, hdec, ?_⟩
  have hfold : ([runTimeSection st, execSection st, uptimeSection st].foldl
      (fun a S => foldStep a (c1SectionRes S)) []) =
      ((execSection st).samples.map sampleVal).foldl applyMetric
        (((runTimeSection st).samples.map sampleVal).foldl applyMetric []) := by
    simp only [List.foldl_cons, List.foldl_nil, c1_res1 st hwf, c1_res2 st hwf,
      c1_res3 st hwf]
    rfl
  rw [hfold]
  set M1 := ((runTimeSection st).samples.map sampleVal).foldl applyMetric
    ([] : List (Nat × BpfProgram)) with hM1def
  set M := ((execSection st).samples.map sampleVal).foldl applyMetric M1
    with hMdef
  have hM1sorted : BtSorted M1 :=
    (foldl_applyMetric_inv _ [] List.Pairwise.nil
      (fun p hp => absurd hp (List.not_mem_nil p))).1
  have hrecM : ∀ e ∈ st, assocLookup e.id M = some (decodedRecord e) := by
    intro e he
    rw [hMdef, fold_applyMetric_lookup _ M1 hM1sorted (c1_nd2 st hids) e.id,
      c1_find2 st hids e he]
    dsimp only
    rw [show (sampleVal ⟨litExecution, e.id, e.progType, e.name, e.runCnt⟩).1 =
      litExecution from rfl]
    rw [hM1def, c1_rec1 st hids e he, Option.getD_some, setField_exec]
    rfl
  have hmem : ∀ e ∈ st, decodedRecord e ∈ M.map Prod.snd := fun e he =>
    List.mem_map_of_mem Prod.snd (assocLookup_some_mem M (hrecM e he))
  have hlen1 : M1.length = st.length := by
    rw [hM1def, fold_applyMetric_length_fresh _ [] List.Pairwise.nil
      (c1_nd1 st hids) (fun s _ => rfl)]
    simp [c1_samples_runTime]
  have hpresent : ∀ s ∈ (execSection st).samples.map sampleVal,
      (assocLookup s.2.1.1 M1).isSome := by
    intro s hs
    rw [c1_samples_exec, List.map_map] at hs
    obtain ⟨e, he, rfl⟩ := List.mem_map.mp hs
    show (assocLookup e.id M1).isSome
    rw [hM1def, c1_rec1 st hids e he]
    rfl
  have hlen2 : M.length = M1.length := by
    rw [hMdef]
    exact fold_applyMetric_length_present _ M1 hM1sorted hpresent
  have hnodupExp : (st.map decodedRecord).Nodup := by
    refine List.Nodup.of_map (fun p : BpfProgram => p.id) ?_
    rw [List.map_map]
    exact hids
  have hsub : st.map decodedRecord ⊆ M.map Prod.snd := by
    intro p hp
    obtain ⟨e, he, rfl⟩ := List.mem_map.mp hp
    exact hmem e he
  refine (List.Subperm.perm_of_length_le (List.Nodup.subperm hnodupExp hsub)
    ?_).symm
  rw [List.length_map, List.length_map, hlen2, hlen1]

set_option maxRecDepth 40000 in
/-- C1 (counterexample): encoding the single-entry registry state with
uptime 3 and decoding it yields one record whose `uptime` is 0, not 3 — the
decoder never recognizes the encoder's `ebpf_uptime_nanoseconds_total`
samples, so the claim's "numeric fields match ... (run time, run count,
uptime)" fails for uptime. -/
theorem c1_counterexample :
    deserialize (scrape_metrics [⟨1, "t".toList, "a".toList, 1, 2, 3⟩]) =
      .ok eofMarker [⟨1, "t".toList, "a".toList, 0, 1, 0, 2, 0, 0, []⟩] ∧
      (⟨1, "t".toList, "a".toList, 0, 1, 0, 2, 0, 0, []⟩ : BpfProgram).uptime ≠
        (⟨1, "t".toList, "a".toList, 1, 2, 3⟩ : EbpfEntry).uptime :=
  ⟨by decide, by decide⟩

/-- C1 (witness for the amended theorem). -/
theorem c1_witness :
    ∃ progs,
      deserialize (scrape_metrics [⟨1, "t".toList, "a".toList, 1, 2, 3⟩]) =
        .ok eofMarker progs ∧
        progs.Perm ([(⟨1, "t".toList, "a".toList, 1, 2, 3⟩ : EbpfEntry)].map
          decodedRecord) :=
  c1_round_trip_no_uptime [⟨1, "t".toList, "a".toList, 1, 2, 3⟩]
    (by decide) (by decide)

/-! ## Claim C5: permutation of family sections -/

theorem setField_uptime (v : Nat) (p : BpfProgram) :
    setMetricField litTimeLoaded v p = { p with uptime := v } := by
  unfold setMetricField
  rw [if_neg (by decide), if_neg (by decide)]

theorem setMetricField_comm (n1 n2 : List Char) (v1 v2 : Nat) (p : BpfProgram)
    (h1 : n1 = litRunTime ∨ n1 = litExecution ∨ n1 = litTimeLoaded)
    (h2 : n2 = litRunTime ∨ n2 = litExecution ∨ n2 = litTimeLoaded)
    (hv : n1 = n2 → v1 = v2) :
    setMetricField n1 v1 (setMetricField n2 v2 p) =
      setMetricField n2 v2 (setMetricField n1 v1 p) := by
  rcases h1 with rfl | rfl | rfl <;> rcases h2 with rfl | rfl | rfl <;>
    simp only [setField_runtime, setField_exec, setField_uptime] <;>
    first
      | rfl
      | rw [hv rfl]

theorem sorted_ext :
    ∀ m1 m2 : List (Nat × BpfProgram), BtSorted m1 → BtSorted m2 →
      (∀ k, assocLookup k m1 = assocLookup k m2) → m1 = m2 := by
  intro m1
  induction m1 with
  | nil =>
    intro m2 _ hs2 hext
    cases m2 with
    | nil => rfl
    | cons p t =>
      obtain ⟨k2, v2⟩ := p
      have := hext k2
      simp [assocLookup] at this
  | cons p t1 ih =>
    intro m2 hs1 hs2 hext
    obtain ⟨k1, v1⟩ := p
    rw [BtSorted, List.pairwise_cons] at hs1
    obtain ⟨hhead1, htail1⟩ := hs1
    cases m2 with
    | nil =>
      have := hext k1
      simp [assocLookup] at this
    | cons q t2 =>
      obtain ⟨k2, v2⟩ := q
      rw [BtSorted, List.pairwise_cons] at hs2
      obtain ⟨hhead2, htail2⟩ := hs2
      have hk : k1 = k2 := by
        by_contra hne
        rcases Nat.lt_or_ge k1 k2 with hlt | hge
        · have h1 := hext k1
          have hnone : assocLookup k1 ((k2, v2) :: t2) = none := by
            refine assocLookup_none_of_forall _ ?_
            intro q hq
            simp only [List.mem_cons] at hq
            rcases hq with rfl | hq
            · show k1 ≠ k2; omega
            · have := hhead2 q hq; omega
          rw [hnone] at h1
          simp [assocLookup] at h1
        · have hlt2 : k2 < k1 := by omega
          have h1 := hext k2
          have hnone : assocLookup k2 ((k1, v1) :: t1) = none := by
            refine assocLookup_none_of_forall _ ?_
            intro q hq
            simp only [List.mem_cons] at hq
            rcases hq with rfl | hq
            · show k2 ≠ k1; omega
            · have := hhead1 q hq; omega
          rw [hnone] at h1
          simp [assocLookup] at h1
      subst hk
      have hv : v1 = v2 := by
        have := hext k1
        simpa [assocLookup] using this
      subst hv
      have hexttail : ∀ k, assocLookup k t1 = assocLookup k t2 := by
        intro k
        by_cases hk1 : k = k1
        · subst hk1
          rw [assocLookup_none_of_forall t1 ?_, assocLookup_none_of_forall t2 ?_]
          · intro q hq
            have := hhead2 q hq
            show k ≠ q.1
            omega
          · intro q hq
            have := hhead1 q hq
            show k ≠ q.1
            omega
        · have := hext k
          simpa [assocLookup, hk1] using this
      rw [ih t2 htail1 htail2 hexttail]

theorem applyMetric_comm (m : List (Nat × BpfProgram)) (hm : BtSorted m)
    (s1 s2 : MetricSample)
    (hr1 : s1.1 = litRunTime ∨ s1.1 = litExecution ∨ s1.1 = litTimeLoaded)
    (hr2 : s2.1 = litRunTime ∨ s2.1 = litExecution ∨ s2.1 = litTimeLoaded)
    (hc : s1.2.1.1 = s2.2.1.1 →
      s1.2.1.2.1 = s2.2.1.2.1 ∧ s1.2.1.2.2 = s2.2.1.2.2 ∧
        (s1.1 = s2.1 → s1.2.2 = s2.2.2)) :
    applyMetric (applyMetric m s1) s2 = applyMetric (applyMetric m s2) s1 := by
  have hsort1 : BtSorted (applyMetric m s1) := btreeUpd_sorted _ _ _ m hm
  have hsort2 : BtSorted (applyMetric m s2) := btreeUpd_sorted _ _ _ m hm
  refine sorted_ext _ _ (btreeUpd_sorted _ _ _ _ hsort1)
    (btreeUpd_sorted _ _ _ _ hsort2) ?_
  intro k
  show assocLookup k (btreeUpd s2.2.1.1 (setMetricField s2.1 s2.2.2)
      (defaultProg s2.2.1.1 s2.2.1.2.1 s2.2.1.2.2) (applyMetric m s1)) =
    assocLookup k (btreeUpd s1.2.1.1 (setMetricField s1.1 s1.2.2)
      (defaultProg s1.2.1.1 s1.2.1.2.1 s1.2.1.2.2) (applyMetric m s2))
  rw [assocLookup_btreeUpd _ _ _ _ hsort1 k,
    assocLookup_btreeUpd _ _ _ _ hsort2 k]
  show (if k = s2.2.1.1 then
      some (setMetricField s2.1 s2.2.2 ((assocLookup s2.2.1.1
        (btreeUpd s1.2.1.1 (setMetricField s1.1 s1.2.2)
          (defaultProg s1.2.1.1 s1.2.1.2.1 s1.2.1.2.2) m)).getD
        (defaultProg s2.2.1.1 s2.2.1.2.1 s2.2.1.2.2)))
    else assocLookup k (applyMetric m s1)) = _
  rw [assocLookup_btreeUpd _ _ _ _ hm s2.2.1.1]
  show _ = (if k = s1.2.1.1 then
      some (setMetricField s1.1 s1.2.2 ((assocLookup s1.2.1.1
        (btreeUpd s2.2.1.1 (setMetricField s2.1 s2.2.2)
          (defaultProg s2.2.1.1 s2.2.1.2.1 s2.2.1.2.2) m)).getD
        (defaultProg s1.2.1.1 s1.2.1.2.1 s1.2.1.2.2)))
    else assocLookup k (applyMetric m s2))
  rw [assocLookup_btreeUpd _ _ _ _ hm s1.2.1.1]
  by_cases hkk : s1.2.1.1 = s2.2.1.1
  · obtain ⟨hpt, hnm, hval⟩ := hc hkk
    by_cases hk1 : k = s1.2.1.1
    · rw [if_pos (by omega), if_pos (by omega), if_pos (by omega),
        if_pos (by omega)]
      rw [hkk, Option.getD_some, Option.getD_some]
      rw [← hkk, ← hpt, ← hnm]
      rw [setMetricField_comm s2.1 s1.1 s2.2.2 s1.2.2 _ hr2 hr1
        (fun hn => (hval hn.symm).symm)]
    · rw [if_neg (by omega), if_neg (by omega)]
      show assocLookup k (applyMetric m s1) = assocLookup k (applyMetric m s2)
      unfold applyMetric
      rw [assocLookup_btreeUpd _ _ _ _ hm k, assocLookup_btreeUpd _ _ _ _ hm k]
      rw [if_neg hk1, if_neg (by omega)]
  · by_cases hk1 : k = s1.2.1.1
    · rw [if_neg (by omega), if_pos (by omega)]
      rw [if_neg (by omega)]
      show assocLookup k (applyMetric m s1) = _
      unfold applyMetric
      rw [assocLookup_btreeUpd _ _ _ _ hm k]
      rw [if_pos hk1]
    · by_cases hk2 : k = s2.2.1.1
      · rw [if_pos (by omega), if_neg (by omega), if_neg (by omega)]
        unfold applyMetric
        rw [assocLookup_btreeUpd _ _ _ _ hm k]
        rw [if_pos hk2]
      · rw [if_neg (by omega), if_neg (by omega)]
        show assocLookup k (applyMetric m s1) = assocLookup k (applyMetric m s2)
        unfold applyMetric
        rw [assocLookup_btreeUpd _ _ _ _ hm k, assocLookup_btreeUpd _ _ _ _ hm k]
        rw [if_neg hk1, if_neg hk2]

theorem foldl_sections_flat :
    ∀ (L : List SectionData) (acc : List (Nat × BpfProgram)),
      L.foldl (fun a S => foldStep a (sectionVal S)) acc =
        (payloadSamples L).foldl applyMetric acc := by
  intro L
  induction L with
  | nil => intro acc; rfl
  | cons S L' ih =>
    intro acc
    rw [List.foldl_cons, ih,
      show payloadSamples (S :: L') = sectionVal S ++ payloadSamples L' from rfl,
      List.foldl_append]
    rfl

theorem payloadSamples_perm {L1 L2 : List SectionData} (h : L1.Perm L2) :
    (payloadSamples L1).Perm (payloadSamples L2) := by
  induction h with
  | nil => exact List.Perm.refl _
  | cons x h ih => exact List.Perm.append_left (sectionVal x) ih
  | swap x y l =>
    show (sectionVal y ++ (sectionVal x ++ payloadSamples l)).Perm
      (sectionVal x ++ (sectionVal y ++ payloadSamples l))
    rw [← List.append_assoc, ← List.append_assoc]
    exact List.Perm.append_right _ List.perm_append_comm
  | trans h1 h2 ih1 ih2 => exact ih1.trans ih2

theorem mem_payloadSamples :
    ∀ (L : List SectionData) (s : MetricSample), s ∈ payloadSamples L →
      ∃ S, S ∈ L ∧ ∃ s0 ∈ S.samples, s = sampleVal s0 := by
  intro L
  induction L with
  | nil => intro s hs; simp [payloadSamples] at hs
  | cons S L' ih =>
    intro s hs
    rw [show payloadSamples (S :: L') = sectionVal S ++ payloadSamples L'
      from rfl, List.mem_append] at hs
    rcases hs with hs | hs
    · obtain ⟨s0, hs0, rfl⟩ := List.mem_map.mp hs
      exact ⟨S, by simp, s0, hs0, rfl⟩
    · obtain ⟨S2, hS2, s0, hs0, rfl⟩ := ih s hs
      exact ⟨S2, by simp [hS2], s0, hs0, rfl⟩

theorem foldl_applyMetric_perm :
    ∀ {l1 l2 : List MetricSample}, l1.Perm l2 →
      (∀ s ∈ l1, s.1 = litRunTime ∨ s.1 = litExecution ∨ s.1 = litTimeLoaded) →
      (∀ s1 ∈ l1, ∀ s2 ∈ l1, s1.2.1.1 = s2.2.1.1 →
        s1.2.1.2.1 = s2.2.1.2.1 ∧ s1.2.1.2.2 = s2.2.1.2.2 ∧
          (s1.1 = s2.1 → s1.2.2 = s2.2.2)) →
      ∀ m, BtSorted m → l1.foldl applyMetric m = l2.foldl applyMetric m := by
  intro l1 l2 hperm
  induction hperm with
  | nil => intro _ _ m _; rfl
  | cons x h ih =>
    intro hrec hcons m hm
    rw [List.foldl_cons, List.foldl_cons]
    exact ih (fun s hs => hrec s (by simp [hs]))
      (fun a ha b hb => hcons a (by simp [ha]) b (by simp [hb]))
      (applyMetric m x) (btreeUpd_sorted _ _ _ m hm)
  | swap x y l =>
    intro hrec hcons m hm
    rw [List.foldl_cons, List.foldl_cons, List.foldl_cons, List.foldl_cons]
    rw [applyMetric_comm m hm y x (hrec y (by simp)) (hrec x (by simp))
      (fun h => hcons y (by simp) x (by simp) h)]
  | trans h1 h2 ih1 ih2 =>
    intro hrec hcons m hm
    rw [ih1 hrec hcons m hm]
    exact ih2 (fun s hs => hrec s (h1.mem_iff.mpr hs))
      (fun a ha b hb => hcons a (h1.mem_iff.mpr ha) b (h1.mem_iff.mpr hb)) m hm

/-- C5 (amended): permuting the family sections of a well-formed payload
(while the `# EOF` marker stays last) does not change the decoded result,
provided the payload's samples are consistent: samples sharing an entity id
agree on the program_type and name labels, and samples sharing both an id
and a metric name carry the same value.  (Without the consistency proviso
the conclusion fails, see the counterexample.) -/
theorem c5_order_independence (L1 L2 : List SectionData)
    (hperm : L1.Perm L2) (hwf : ∀ S ∈ L1, SectionWF S)
    (hcons : ∀ s1 ∈ payloadSamples L1, ∀ s2 ∈ payloadSamples L1,
      s1.2.1.1 = s2.2.1.1 →
        s1.2.1.2.1 = s2.2.1.2.1 ∧ s1.2.1.2.2 = s2.2.1.2.2 ∧
          (s1.1 = s2.1 → s1.2.2 = s2.2.2)) :
    deserialize (renderPayload L1) = deserialize (renderPayload L2) := by
  have hres1 : ∀ S ∈ L1, ∀ rest,
      parse_section (renderSection S ++ '#' :: rest) =
        .ok ('#' :: rest) (sectionVal S) :=
    fun S hS rest => parse_section_render S rest (hwf S hS)
  have hres2 : ∀ S ∈ L2, ∀ rest,
      parse_section (renderSection S ++ '#' :: rest) =
        .ok ('#' :: rest) (sectionVal S) :=
    fun S hS rest => parse_section_render S rest (hwf S (hperm.mem_iff.mpr hS))
  rw [deserialize_renderPayload L1 sectionVal hres1,
    deserialize_renderPayload L2 sectionVal hres2]
  have hrec : ∀ s ∈ payloadSamples L1,
      s.1 = litRunTime ∨ s.1 = litExecution ∨ s.1 = litTimeLoaded := by
    intro s hs
    obtain ⟨S, hS, s0, hs0, rfl⟩ := mem_payloadSamples L1 s hs
    exact ((hwf S hS).2.2.2 s0 hs0).1
  have hfold : (L1.foldl (fun a S => foldStep a (sectionVal S)) []) =
      (L2.foldl (fun a S => foldStep a (sectionVal S)) []) := by
    rw [foldl_sections_flat L1 [], foldl_sections_flat L2 []]
    exact foldl_applyMetric_perm (payloadSamples_perm hperm) hrec hcons []
      List.Pairwise.nil
  rw [hfold]

set_option maxRecDepth 20000 in
/-- C5 (counterexample): two well-formed sections both carrying a run-time
sample for id 1, with values 5 and 7; swapping the sections (a permutation
keeping `# EOF` last) changes the decoded run-time value, so the claim
fails without a consistency proviso. -/
theorem c5_counterexample :
    [c5SecA, c5SecB].Perm [c5SecB, c5SecA] ∧
      deserialize (renderPayload [c5SecA, c5SecB]) ≠
        deserialize (renderPayload [c5SecB, c5SecA]) :=
  ⟨List.Perm.swap c5SecB c5SecA [], by decide⟩

set_option maxRecDepth 20000 in
/-- C5 (witness for the amended theorem). -/
theorem c5_witness :
    deserialize (renderPayload [c5SecA, c5SecC]) =
      deserialize (renderPayload [c5SecC, c5SecA]) :=
  c5_order_independence [c5SecA, c5SecC] [c5SecC, c5SecA]
    (List.Perm.swap c5SecC c5SecA []) (by decide) (by decide)
